import Mathlib

/-!
# Early console of `arch/arm64/kernel/early_printk.c`

A shallow embedding of the early console: the transmit functions over a
memory-mapped bus, the registry `earlycon_match`, the parser
`setup_early_printk` and the line writer `early_write`.

C strings are lists of characters; a read past the end of the list yields the
terminating NUL.  Machine integers are natural numbers reduced modulo the width
of their C type where the width matters.
-/

namespace EarlyPrintk

/-! ## C strings -/

/-- The terminating NUL of a C string. -/
def NUL : Char := Char.ofNat 0

/-- The character a `char *` points at: the head of the list, NUL at its end. -/
def deref (s : List Char) : Char := s.headD NUL

/-- Modelled from the spec: `strlen` of `lib/string.c` (not under src): the
number of characters before the terminating NUL. -/
def strlen : List Char → Nat
  | [] => 0
  | c :: s => if c = NUL then 0 else strlen s + 1

/-- Modelled from the spec: `strncmp` of `lib/string.c` (not under src), the
comparison behind "literal prefix": at most `count` characters are compared,
the first difference decides, and the comparison stops at a common NUL. -/
def strncmp : List Char → List Char → Nat → Int
  | _, _, 0 => 0
  | cs, ct, count + 1 =>
    let c1 := deref cs
    let c2 := deref ct
    if c1 ≠ c2 then (if c1 < c2 then -1 else 1)
    else if c1 = NUL then 0
    else strncmp cs.tail ct.tail count

/-- The value of a base-16 digit, `none` for any other character (NUL
included). -/
def hex_digit (c : Char) : Option Nat :=
  if '0' ≤ c ∧ c ≤ '9' then some (c.toNat - '0'.toNat)
  else if 'a' ≤ c ∧ c ≤ 'f' then some (c.toNat - 'a'.toNat + 10)
  else if 'A' ≤ c ∧ c ≤ 'F' then some (c.toNat - 'A'.toNat + 10)
  else none

/-- Width in bits of `unsigned long` and of `phys_addr_t` on arm64. -/
def ADDR_BITS : Nat := 64

/-- Modelled from the spec: the digit loop of `simple_strtoul` (not under
src).  Digits are accumulated in an `unsigned long`, so the running value is
reduced modulo `2 ^ ADDR_BITS`; the loop stops at the first character that is
no base-16 digit and returns the value with the rest of the text (the end
pointer). -/
def parse_integer (res : Nat) : List Char → Nat × List Char
  | [] => (res, [])
  | c :: s =>
    match hex_digit c with
    | some v => parse_integer ((res * 16 + v) % 2 ^ ADDR_BITS) s
    | none => (res, c :: s)

/-- Modelled from the spec: `simple_strtoul(cp, &e, 16)` of `lib/vsprintf.c`
(not under src): "parse the following text as a base-16 unsigned integer up to
the first non-hex-digit".  A leading `0x` is skipped; the result is the parsed
`unsigned long` together with the end pointer `e`. -/
def simple_strtoul (cp : List Char) : Nat × List Char :=
  if deref cp = '0' ∧ (deref cp.tail = 'x' ∨ deref cp.tail = 'X') then
    parse_integer 0 (cp.drop 2)
  else parse_integer 0 cp

/-- The base-16 value of a string of hexadecimal digits, as a natural number
of any size. -/
def hex_value (h : List Char) : Nat :=
  h.foldl (fun acc c => acc * 16 + (hex_digit c).getD 0) 0

/-- Whether a character is a hexadecimal digit. -/
def is_hex (c : Char) : Bool := (hex_digit c).isSome

/-! ## The memory-mapped bus -/

/-- One access the processor performs: a register read or write of the given
width in bits at an address, or the semihosting trap of `smh_printch`. -/
inductive Access where
  | read (width addr val : Nat)
  | write (width addr val : Nat)
  | semihost (ch : Char)
  deriving DecidableEq, Repr

/-- The bus as the processor sees it.  `future a i` is the raw value the
`i`-th coming read of address `a` will return (the simulated device);
`trace` lists the accesses performed so far, oldest first. -/
@[ext]
structure Bus where
  future : Nat → Nat → Nat
  trace : List Access

/-- The device after one read of `addr`: that register moves on by one poll. -/
def Bus.advance (b : Bus) (addr : Nat) : Nat → Nat → Nat :=
  fun a i => if a = addr then b.future a (i + 1) else b.future a i

/-- An 8-bit register read: `readb_relaxed(addr)`. -/
def readb_relaxed (addr : Nat) (b : Bus) : Nat × Bus :=
  let v := b.future addr 0 % 2 ^ 8
  (v, { future := b.advance addr, trace := b.trace ++ [Access.read 8 addr v] })

/-- A 32-bit register read: `readl_relaxed(addr)`. -/
def readl_relaxed (addr : Nat) (b : Bus) : Nat × Bus :=
  let v := b.future addr 0 % 2 ^ 32
  (v, { future := b.advance addr, trace := b.trace ++ [Access.read 32 addr v] })

/-- An 8-bit register write: `writeb_relaxed(val, addr)`. -/
def writeb_relaxed (val addr : Nat) (b : Bus) : Bus :=
  { b with trace := b.trace ++ [Access.write 8 addr (val % 2 ^ 8)] }

/-- A 32-bit register write: `writel_relaxed(val, addr)`. -/
def writel_relaxed (val addr : Nat) (b : Bus) : Bus :=
  { b with trace := b.trace ++ [Access.write 32 addr (val % 2 ^ 32)] }

/-- The value of a C `char` (unsigned on arm64) when it is passed to a
register write. -/
def char_val (ch : Char) : Nat := ch.toNat % 2 ^ 8

/-- A busy-wait `while (cond) ;`: `cond` is evaluated on the bus (it reads
registers) and the loop goes round while it holds.  `fuel` bounds the number
of evaluations; `none` means the loop was still spinning when it ran out. -/
def spin (cond : Bus → Bool × Bus) : Nat → Bus → Option Bus
  | 0, _ => none
  | fuel + 1, b =>
    match cond b with
    | (true, b1) => spin cond fuel b1
    | (false, b1) => some b1

/-! ## Register constants -/

/-- The register offsets and bit masks of `linux/amba/serial.h` and
`linux/serial_reg.h`, which are not under src: they are parameters of the
transmit functions. -/
structure Headers where
  UART01x_DR : Nat
  UART01x_FR : Nat
  UART01x_FR_TXFF : Nat
  UART01x_FR_BUSY : Nat
  UART_TX : Nat
  UART_LSR : Nat
  UART_LSR_THRE : Nat

/-- The values the kernel headers give these constants; TXFF and BUSY are
distinct bits of the PL011 flag register.  Used in the worked examples. -/
def linux_headers : Headers :=
  { UART01x_DR := 0x00, UART01x_FR := 0x18, UART01x_FR_TXFF := 0x020,
    UART01x_FR_BUSY := 0x008, UART_TX := 0, UART_LSR := 5, UART_LSR_THRE := 0x20 }

/-- The macro `BIT(n)`. -/
def BIT (n : Nat) : Nat := 1 <<< n

def MSM_HSL_UART_SR : Nat := 0xa4
def MSM_HSL_UART_ISR : Nat := 0xb4
def MSM_HSL_UART_TF : Nat := 0x100
def MSM_HSL_UART_CR : Nat := 0xa8
def MSM_HSL_UART_NCF_TX : Nat := 0x40
def MSM_HSL_UART_SR_TXEMT : Nat := BIT 3
def MSM_HSL_UART_ISR_TXREADY : Nat := BIT 7

/-! ## The transmit functions -/

/-- The first wait of `pl011_printch` (line 39): spin while TXFF is set. -/
def pl011_txff_cond (hd : Headers) (early_base : Nat) (b : Bus) : Bool × Bus :=
  let r := readl_relaxed (early_base + hd.UART01x_FR) b
  (r.1 &&& hd.UART01x_FR_TXFF != 0, r.2)

/-- The second wait of `pl011_printch` (line 42): spin while BUSY is set. -/
def pl011_busy_cond (hd : Headers) (early_base : Nat) (b : Bus) : Bool × Bus :=
  let r := readl_relaxed (early_base + hd.UART01x_FR) b
  (r.1 &&& hd.UART01x_FR_BUSY != 0, r.2)

/-- PL011 single character TX (lines 37-44). -/
def pl011_printch (hd : Headers) (early_base : Nat) (fuel : Nat) (ch : Char) (b : Bus) :
    Option Bus :=
  match spin (pl011_txff_cond hd early_base) fuel b with
  | none => none
  | some b1 =>
    spin (pl011_busy_cond hd early_base) fuel
      (writeb_relaxed (char_val ch) (early_base + hd.UART01x_DR) b1)

/-- Semihosting-based debug console (lines 49-55): the trap `hlt 0xf000` with
operation 3 and the address of the character. -/
def smh_printch (ch : Char) (b : Bus) : Option Bus :=
  some { b with trace := b.trace ++ [Access.semihost ch] }

/-- The wait of `uart8250_8bit_printch` (line 62): spin while THRE is clear. -/
def uart8250_8bit_cond (hd : Headers) (early_base : Nat) (b : Bus) : Bool × Bus :=
  let r := readb_relaxed (early_base + hd.UART_LSR) b
  (!(r.1 &&& hd.UART_LSR_THRE != 0), r.2)

/-- 8250/16550 (8-bit aligned registers) single character TX (lines 60-65). -/
def uart8250_8bit_printch (hd : Headers) (early_base : Nat) (fuel : Nat) (ch : Char)
    (b : Bus) : Option Bus :=
  match spin (uart8250_8bit_cond hd early_base) fuel b with
  | none => none
  | some b1 => some (writeb_relaxed (char_val ch) (early_base + hd.UART_TX) b1)

/-- The wait of `uart8250_32bit_printch` (line 72). -/
def uart8250_32bit_cond (hd : Headers) (early_base : Nat) (b : Bus) : Bool × Bus :=
  let r := readl_relaxed (early_base + (hd.UART_LSR <<< 2)) b
  (!(r.1 &&& hd.UART_LSR_THRE != 0), r.2)

/-- 8250/16550 (32-bit aligned registers) single character TX (lines 70-75). -/
def uart8250_32bit_printch (hd : Headers) (early_base : Nat) (fuel : Nat) (ch : Char)
    (b : Bus) : Option Bus :=
  match spin (uart8250_32bit_cond hd early_base) fuel b with
  | none => none
  | some b1 => some (writel_relaxed (char_val ch) (early_base + (hd.UART_TX <<< 2)) b1)

/-- The wait of `msm_hsl_uart_printch` (lines 90-94): spin while TXEMT is clear
in SR and TXREADY is clear in ISR; ISR is read only when TXEMT was clear. -/
def msm_hsl_uart_cond (early_base : Nat) (b : Bus) : Bool × Bus :=
  let r := readl_relaxed (early_base + MSM_HSL_UART_SR) b
  if !(r.1 &&& MSM_HSL_UART_SR_TXEMT != 0) then
    let q := readl_relaxed (early_base + MSM_HSL_UART_ISR) r.2
    (!(q.1 &&& MSM_HSL_UART_ISR_TXREADY != 0), q.2)
  else (false, r.2)

/-- The transmit function `msm_hsl_uart_printch` (lines 85-103).  The body is
compiled only when `CONFIG_SHSYS_CUST` is not defined; the build option is not
under src and is a parameter. -/
def msm_hsl_uart_printch (CONFIG_SHSYS_CUST : Bool) (early_base : Nat) (fuel : Nat)
    (ch : Char) (b : Bus) : Option Bus :=
  if CONFIG_SHSYS_CUST then some b
  else
    match spin (msm_hsl_uart_cond early_base) fuel b with
    | none => none
    | some b1 =>
      let b2 := writel_relaxed 0x300 (early_base + MSM_HSL_UART_CR) b1
      let b3 := writel_relaxed 1 (early_base + MSM_HSL_UART_NCF_TX) b2
      let b4 := (readl_relaxed (early_base + MSM_HSL_UART_NCF_TX) b3).2
      some (writel_relaxed (char_val ch) (early_base + MSM_HSL_UART_TF) b4)

/-! ## The registry -/

/-- The transmit functions as values of the function pointer `printch`. -/
inductive Printch where
  | pl011_printch
  | smh_printch
  | uart8250_8bit_printch
  | uart8250_32bit_printch
  | msm_hsl_uart_printch
  deriving DecidableEq, Repr

/-- A call through the function pointer. -/
def Printch.call (hd : Headers) (CONFIG_SHSYS_CUST : Bool) (early_base : Nat) (fuel : Nat) :
    Printch → Char → Bus → Option Bus
  | .pl011_printch => EarlyPrintk.pl011_printch hd early_base fuel
  | .smh_printch => EarlyPrintk.smh_printch
  | .uart8250_8bit_printch => EarlyPrintk.uart8250_8bit_printch hd early_base fuel
  | .uart8250_32bit_printch => EarlyPrintk.uart8250_32bit_printch hd early_base fuel
  | .msm_hsl_uart_printch => EarlyPrintk.msm_hsl_uart_printch CONFIG_SHSYS_CUST early_base fuel

/-- The descriptor `struct earlycon_match` (lines 105-108); both fields are
pointers and are null in the empty entry. -/
structure earlycon_match_entry where
  name : Option (List Char)
  printch : Option Printch
  deriving DecidableEq, Repr

/-- The five backends of the registry, in declaration order (lines 111-115). -/
def earlycon_backends : List earlycon_match_entry :=
  [ { name := some ['p', 'l', '0', '1', '1'], printch := some .pl011_printch },
    { name := some ['s', 'm', 'h'], printch := some .smh_printch },
    { name := some ['u', 'a', 'r', 't', '8', '2', '5', '0', '-', '8', 'b', 'i', 't'],
      printch := some .uart8250_8bit_printch },
    { name := some ['u', 'a', 'r', 't', '8', '2', '5', '0', '-', '3', '2', 'b', 'i', 't'],
      printch := some .uart8250_32bit_printch },
    { name := some ['m', 's', 'm', '_', 'h', 's', 'l', '_', 'u', 'a', 'r', 't'],
      printch := some .msm_hsl_uart_printch } ]

/-- The terminating empty entry `{}` (line 116). -/
def empty_entry : earlycon_match_entry := { name := none, printch := none }

/-- The registry `earlycon_match[]` (lines 110-117). -/
def earlycon_match : List earlycon_match_entry := earlycon_backends ++ [empty_entry]

/-! ## The parser -/

/-- The console structures `register_console` can be handed; this file has
one, `early_console_dev` (lines 129-134), whose write operation is
`early_write`. -/
inductive ConsoleRef where
  | early_console_dev
  deriving DecidableEq, Repr

/-- One `pr_warning` call: the format string and its `%s` argument. -/
structure LogLine where
  fmt : String
  arg : Option (List Char)
  deriving DecidableEq, Repr

/-- The process-wide state the parser acts on: the globals `early_base`
(0 is the null pointer), `printch` and `early_console`, and what the
collaborators have been asked to do: the consoles passed to
`register_console`, the physical addresses passed to `set_fixmap_offset_io`
and the warnings logged, each oldest first. -/
structure State where
  early_base : Nat
  printch : Option Printch
  early_console : Option ConsoleRef
  registered : List ConsoleRef
  fixmap_calls : List Nat
  log : List LogLine
  deriving DecidableEq, Repr

/-- The state at boot: the statics are zero and nothing has been called. -/
def State.boot : State :=
  { early_base := 0, printch := none, early_console := none, registered := [],
    fixmap_calls := [], log := [] }

/-- The scan of the registry (lines 154-161) from the entry `match` points at:
it returns the entry `match` points at when the loop is left and the advanced
`buf`.  `none` stands for a scan that runs past the end of the array, which a
table ending in the empty entry excludes. -/
def scan_registry : List earlycon_match_entry → List Char →
    Option (earlycon_match_entry × List Char)
  | [], _ => none
  | m :: rest, buf =>
    match m.name with
    | none => some (m, buf)
    | some name =>
      let len := strlen name
      if strncmp buf name len = 0 then some (m, buf.drop len)
      else scan_registry rest buf

/-- The I/O address part (lines 167-172): the physical address and the
advanced `buf`. -/
def parse_address (buf : List Char) : Nat × List Char :=
  if strncmp buf [',', '0', 'x'] 3 = 0 then
    let r := simple_strtoul (buf.drop 1)
    (r.1 % 2 ^ ADDR_BITS, r.2)
  else (0, buf)

/-- The body of `setup_early_printk` (lines 144-183) over a registry `table`;
`fixmap` is the address-remap collaborator
`set_fixmap_offset_io(FIX_EARLYCON_MEM_BASE, paddr)`, `buf` is `none` for a
null pointer.  The result is the return value and the new state. -/
def setup_early_printk_on (table : List earlycon_match_entry) (fixmap : Nat → Nat)
    (buf : Option (List Char)) (st : State) : Option (Int × State) :=
  match buf with
  | none =>
    some (0, { st with log := st.log ++ [⟨"No earlyprintk arguments passed.\n", none⟩] })
  | some buf =>
    match scan_registry table buf with
    | none => none
    | some (m, buf1) =>
      match m.name with
      | none =>
        some (0, { st with
          log := st.log ++ [⟨"Unknown earlyprintk arguments: %s\n", some buf1⟩] })
      | some _ =>
        let paddr := (parse_address buf1).1
        let st1 : State :=
          if paddr ≠ 0 then
            { st with early_base := fixmap paddr, fixmap_calls := st.fixmap_calls ++ [paddr] }
          else st
        some (0, { st1 with
          printch := m.printch
          early_console := some .early_console_dev
          registered := st1.registered ++ [.early_console_dev] })

/-- The parser `setup_early_printk` over the registry `earlycon_match`. -/
def setup_early_printk (fixmap : Nat → Nat) (buf : Option (List Char)) (st : State) :
    Option (Int × State) :=
  setup_early_printk_on earlycon_match fixmap buf st

/-! ## The line writer -/

/-- The loop of `early_write` (lines 119-127).  `s` is the memory the pointer
`s` points at, `n` the countdown, `printch` the active sink acting on a state
`σ`.  A read of `*s` outside the buffer is undefined and yields `none`. -/
def early_write {σ : Type} (printch : Char → σ → σ) : List Char → Nat → σ → Option σ
  | _, 0, st => some st
  | [], _ + 1, _ => none
  | c :: s, n + 1, st =>
    let st1 := if c = '\n' then printch '\r' st else st
    early_write printch s n (printch c st1)

/-- The sequence the contract of the line writer describes: every line feed is
preceded by a carriage return, every other character stands as it is. -/
def crlf : List Char → List Char
  | [] => []
  | c :: s => if c = '\n' then '\r' :: '\n' :: crlf s else c :: crlf s

/-- A sink that records the characters it is called with, in order. -/
def record_sink (c : Char) (calls : List Char) : List Char := calls ++ [c]

/-! ## Notions the properties are stated with -/

/-- Whether the name of a registry entry is a literal prefix of `buf`. -/
def prefix_matches (buf : List Char) (m : earlycon_match_entry) : Bool :=
  match m.name with
  | some name => name.isPrefixOf buf
  | none => false

/-- The first entry of `table`, in its order, whose name is a literal prefix
of `buf`. -/
def first_match (table : List earlycon_match_entry) (buf : List Char) :
    Option earlycon_match_entry :=
  table.find? (prefix_matches buf)

/-- Whether the names of two entries are in a prefix relationship (equal names
included), either way round. -/
def names_clash (a b : earlycon_match_entry) : Bool :=
  match a.name, b.name with
  | some x, some y => x.isPrefixOf y || y.isPrefixOf x
  | _, _ => false

/-- Whether an entry has a name and the name is free of NUL, as a C string
literal is. -/
def well_named (m : earlycon_match_entry) : Bool :=
  match m.name with
  | some name => !name.contains NUL
  | none => false

/-- The length of the name of an entry (0 for the empty entry). -/
def name_length (m : earlycon_match_entry) : Nat := (m.name.getD []).length

/-- The state `setup_early_printk` leaves when it has selected the entry `m`
and parsed the physical address `paddr`: the remap collaborator is called
only for a nonzero address, then the transmit function is recorded and the
console registered. -/
def selected_state (fixmap : Nat → Nat) (st : State) (m : earlycon_match_entry)
    (paddr : Nat) : State :=
  { early_base := if paddr ≠ 0 then fixmap paddr else st.early_base
    printch := m.printch
    early_console := some .early_console_dev
    registered := st.registered ++ [.early_console_dev]
    fixmap_calls := if paddr ≠ 0 then st.fixmap_calls ++ [paddr] else st.fixmap_calls
    log := st.log }

/-- The address the argument syntax gives the text `rest` that follows the
matched name: when `rest` begins with `,0x`, the base-16 value of the digits
that follow, up to the first character that is no hexadecimal digit, reduced
to the width of the address type; 0 when `rest` does not begin with `,0x`. -/
def spec_address (rest : List Char) : Nat :=
  if [',', '0', 'x'] <+: rest then
    hex_value ((rest.drop 3).takeWhile is_hex) % 2 ^ ADDR_BITS
  else 0

/-- A remap collaborator for the worked examples: a fixed virtual page plus
the offset of the physical address within its page. -/
def sample_fixmap (paddr : Nat) : Nat := 0xffffffbffbdfe000 + paddr % 4096

/-- The state after the warning about arguments that name no backend. -/
def unknown_state (st : State) (buf : List Char) : State :=
  { st with log := st.log ++ [⟨"Unknown earlyprintk arguments: %s\n", some buf⟩] }

/-- The value the `i`-th coming read of the register at `addr` returns at the
given width. -/
def Bus.poll_value (b : Bus) (width addr i : Nat) : Nat := b.future addr i % 2 ^ width

/-- Whether an access is a register write. -/
def Access.is_write : Access → Bool
  | .write _ _ _ => true
  | _ => false

/-- The first `n` coming reads of the register at `addr`, of the given width,
as accesses: what `n` polls of that register add to the trace. -/
def status_reads (b : Bus) (width addr n : Nat) : List Access :=
  (List.range n).map (fun i => Access.read width addr (b.future addr i % 2 ^ width))

/-- The bus after `n` reads of the register at `addr`. -/
def Bus.after_reads (b : Bus) (width addr n : Nat) : Bus :=
  { future := fun a i => if a = addr then b.future a (i + n) else b.future a i
    trace := b.trace ++ status_reads b width addr n }

/-- A wait on one register: read it at the given width and go round while
`busy` holds of the value.  The waits of the PL011 and 8250 transmit
functions are of this form. -/
def poll (width addr : Nat) (busy : Nat → Bool) (b : Bus) : Bool × Bus :=
  let v := b.future addr 0 % 2 ^ width
  (busy v, { future := b.advance addr, trace := b.trace ++ [Access.read width addr v] })

/-- No register write stands before the first access that shows ready: every
write of the trace comes after a status read that shows ready. -/
def no_write_before (ready : Access → Bool) (tr : List Access) : Bool :=
  (tr.takeWhile (fun e => !ready e)).all (fun e => !e.is_write)

/-- The values written to the register at `addr`, in order. -/
def values_written (addr : Nat) : List Access → List Nat
  | [] => []
  | .write _ a v :: tr => if a = addr then v :: values_written addr tr else values_written addr tr
  | _ :: tr => values_written addr tr

/-- A read of the PL011 flag register that shows TXFF clear. -/
def pl011_ready (hd : Headers) (early_base : Nat) : Access → Bool
  | .read _ a v => a == early_base + hd.UART01x_FR && v &&& hd.UART01x_FR_TXFF == 0
  | _ => false

/-- A read of the line status register at `lsr` that shows THRE set. -/
def uart8250_ready (hd : Headers) (lsr : Nat) : Access → Bool
  | .read _ a v => a == lsr && v &&& hd.UART_LSR_THRE != 0
  | _ => false

/-- A read of SR that shows TXEMT set or a read of ISR that shows TXREADY
set. -/
def msm_hsl_uart_ready (early_base : Nat) : Access → Bool
  | .read _ a v =>
    (a == early_base + MSM_HSL_UART_SR && v &&& MSM_HSL_UART_SR_TXEMT != 0)
      || (a == early_base + MSM_HSL_UART_ISR && v &&& MSM_HSL_UART_ISR_TXREADY != 0)
  | _ => false

/-- The value the `i`-th coming 32-bit read of SR returns. -/
def msm_sr (early_base : Nat) (b : Bus) (i : Nat) : Nat :=
  b.future (early_base + MSM_HSL_UART_SR) i % 2 ^ 32

/-- The value the `i`-th coming 32-bit read of ISR returns. -/
def msm_isr (early_base : Nat) (b : Bus) (i : Nat) : Nat :=
  b.future (early_base + MSM_HSL_UART_ISR) i % 2 ^ 32

/-- The accesses of `k` rounds of the wait of `msm_hsl_uart_printch` that all
find the device busy: each round reads SR, then ISR. -/
def msm_busy_polls (early_base : Nat) (b : Bus) (k : Nat) : List Access :=
  (List.range k).flatMap (fun i =>
    [Access.read 32 (early_base + MSM_HSL_UART_SR) (msm_sr early_base b i),
     Access.read 32 (early_base + MSM_HSL_UART_ISR) (msm_isr early_base b i)])

/-- The accesses of round `k` of the wait when it finds the device ready: SR
alone when it shows TXEMT, SR and then ISR otherwise. -/
def msm_last_poll (early_base : Nat) (b : Bus) (k : Nat) : List Access :=
  if msm_sr early_base b k &&& MSM_HSL_UART_SR_TXEMT != 0 then
    [Access.read 32 (early_base + MSM_HSL_UART_SR) (msm_sr early_base b k)]
  else
    [Access.read 32 (early_base + MSM_HSL_UART_SR) (msm_sr early_base b k),
     Access.read 32 (early_base + MSM_HSL_UART_ISR) (msm_isr early_base b k)]

/-- A simulated device whose registers all read the constant `v`. -/
def constant_device (v : Nat) : Bus := { future := fun _ _ => v, trace := [] }

/-- A simulated device whose registers all read `busy` for the first `k`
polls and `ready` from then on. -/
def step_device (busy ready k : Nat) : Bus :=
  { future := fun _ i => if i < k then busy else ready, trace := [] }

/-- A simulated PL011 whose flag register reads 0x20 (TXFF) for two polls,
then 0x08 (BUSY) for two polls, then 0. -/
def pl011_sample_device : Bus :=
  { future := fun _ i => if i < 2 then 0x20 else if i < 4 then 0x08 else 0, trace := [] }

/-! ## Theorems: the line writer -/

theorem early_write_fold {σ : Type} (printch : Char → σ → σ) :
    ∀ (s : List Char) (n : Nat) (st : σ), n ≤ s.length →
      early_write printch s n st
        = some ((crlf (s.take n)).foldl (fun a c => printch c a) st) := by
  intro s
  induction s with
  | nil =>
    intro n st hn
    have h0 : n = 0 := by simpa using hn
    subst h0
    simp [early_write, crlf]
  | cons c s ih =>
    intro n st hn
    cases n with
    | zero => simp [early_write, crlf]
    | succ n =>
      have hn1 : n ≤ s.length := by simpa using hn
      by_cases hc : c = '\n'
      · simp [early_write, crlf, hc, ih n _ hn1]
      · simp [early_write, crlf, hc, ih n _ hn1]

theorem record_sink_fold (l acc : List Char) :
    l.foldl (fun a c => record_sink c a) acc = acc ++ l := by
  induction l generalizing acc with
  | nil => simp
  | cons c l ih =>
    rw [List.foldl_cons, ih]
    simp [record_sink]

theorem crlf_length (l : List Char) : (crlf l).length = l.length + l.count '\n' := by
  induction l with
  | nil => simp [crlf]
  | cons c l ih =>
    by_cases hc : c = '\n'
    · subst hc
      simp [crlf, ih]
      omega
    · have hc1 : ('\n' == c) = false := by
        simp only [beq_eq_false_iff_ne, ne_eq]
        exact fun h => hc h.symm
      simp [crlf, hc, ih, List.count_cons, hc1]
      omega

/-- Claim C1: for a buffer `s` of at least `n` characters, `early_write` calls
the sink with exactly the `crlf` translation of the first `n` characters, in
order: for every sink the final state is the fold of the sink over that
sequence, a recording sink records exactly that sequence, its length is `n`
plus the number of line feeds among the first `n` characters, and the
characters at index `n` and beyond have no influence. -/
theorem early_write_contract {σ : Type} (printch : Char → σ → σ) (s : List Char) (n : Nat)
    (st : σ) (hn : n ≤ s.length) :
    early_write printch s n st
        = some ((crlf (s.take n)).foldl (fun a c => printch c a) st)
      ∧ early_write record_sink s n [] = some (crlf (s.take n))
      ∧ (crlf (s.take n)).length = n + (s.take n).count '\n'
      ∧ ∀ s2 : List Char, s2.take n = s.take n →
          early_write printch s2 n st = early_write printch s n st := by
  refine ⟨early_write_fold printch s n st hn, ?_, ?_, ?_⟩
  · rw [early_write_fold record_sink s n [] hn, record_sink_fold]
    simp
  · rw [crlf_length, List.length_take, Nat.min_eq_left hn]
  · intro s2 h2
    have hlen : n ≤ s2.length := by
      have := congrArg List.length h2
      simp only [List.length_take] at this
      omega
    rw [early_write_fold printch s2 n st hlen, early_write_fold printch s n st hn, h2]

/-- The example of claim C1: the five characters of "ab\ncd" are transmitted
as a, b, carriage return, line feed, c, d. -/
theorem early_write_contract_witness :
    5 ≤ ['a', 'b', '\n', 'c', 'd'].length
      ∧ early_write record_sink ['a', 'b', '\n', 'c', 'd'] 5 []
          = some ['a', 'b', '\r', '\n', 'c', 'd'] :=
  ⟨by decide,
   (early_write_contract record_sink ['a', 'b', '\n', 'c', 'd'] 5 [] (by decide)).2.1.trans
     (by decide)⟩

/-! ## Theorems: C strings -/

theorem NUL_not_hex : hex_digit NUL = none := by decide

theorem strlen_eq_length : ∀ (name : List Char), NUL ∉ name → strlen name = name.length := by
  intro name
  induction name with
  | nil => intro _; rfl
  | cons c s ih =>
    intro h
    have hc : c ≠ NUL := fun e => h (by simp [e])
    have hs : NUL ∉ s := fun e => h (by simp [e])
    simp [strlen, hc, ih hs]

theorem strncmp_zero_iff : ∀ (name buf : List Char), NUL ∉ name →
    (strncmp buf name name.length = 0 ↔ name <+: buf) := by
  intro name
  induction name with
  | nil => intro buf _; simp [strncmp]
  | cons c s ih =>
    intro buf h
    have hc : c ≠ NUL := fun e => h (by simp [e])
    have hs : NUL ∉ s := fun e => h (by simp [e])
    cases buf with
    | nil =>
      have hne : NUL ≠ c := fun e => hc e.symm
      simp only [List.length_cons, strncmp, deref, List.headD_nil, List.headD_cons, ne_eq, hne,
        not_false_eq_true, if_true]
      constructor
      · intro h0; split at h0 <;> simp at h0
      · intro h0; simp at h0
    | cons d buf =>
      by_cases hd : d = c
      · subst hd
        simp only [List.length_cons, strncmp, deref, List.headD_cons, ne_eq, not_true_eq_false,
          if_false, hc, List.tail_cons]
        rw [ih buf hs]
        simp [List.cons_prefix_cons]
      · simp only [List.length_cons, strncmp, deref, List.headD_cons, ne_eq, hd,
          not_false_eq_true, if_true]
        constructor
        · intro h0; split at h0 <;> simp at h0
        · intro h0
          rw [List.cons_prefix_cons] at h0
          exact absurd h0.1.symm hd

theorem parse_integer_append (h t : List Char) (hh : ∀ c ∈ h, is_hex c = true)
    (ht : is_hex (deref t) = false) :
    ∀ r : Nat, parse_integer (r % 2 ^ ADDR_BITS) (h ++ t)
      = ((h.foldl (fun acc c => acc * 16 + (hex_digit c).getD 0) r) % 2 ^ ADDR_BITS, t) := by
  induction h with
  | nil =>
    intro r
    cases t with
    | nil => simp [parse_integer]
    | cons c t =>
      have hc : hex_digit c = none := by
        simpa [is_hex, deref] using ht
      simp [parse_integer, hc]
  | cons c h ih =>
    intro r
    have hc : is_hex c = true := hh c (by simp)
    obtain ⟨v, hv⟩ := Option.isSome_iff_exists.mp hc
    have hrest : ∀ c ∈ h, is_hex c = true := fun d hd => hh d (by simp [hd])
    simp only [List.cons_append, parse_integer, hv, List.foldl_cons, Option.getD_some]
    have hmod : (r % 2 ^ ADDR_BITS * 16 + v) % 2 ^ ADDR_BITS = (r * 16 + v) % 2 ^ ADDR_BITS := by
      simp [Nat.add_mod, Nat.mul_mod]
    rw [hmod]
    exact ih hrest (r * 16 + v)

/-! ## Theorems: the scan of the registry -/

theorem well_named_spec (m : earlycon_match_entry) (h : well_named m = true) :
    ∃ name, m.name = some name ∧ NUL ∉ name := by
  unfold well_named at h
  cases hn : m.name with
  | none => simp [hn] at h
  | some name =>
    refine ⟨name, rfl, ?_⟩
    simpa [hn] using h

theorem scan_registry_eq (buf : List Char) :
    ∀ l : List earlycon_match_entry, (∀ m ∈ l, well_named m = true) →
      scan_registry (l ++ [empty_entry]) buf
        = some (match first_match l buf with
                | some m => (m, buf.drop (name_length m))
                | none => (empty_entry, buf)) := by
  intro l
  induction l with
  | nil => intro _; simp [scan_registry, empty_entry, first_match]
  | cons m l ih =>
    intro h
    obtain ⟨name, hn, hnul⟩ := well_named_spec m (h m (by simp))
    have ih1 := ih (fun x hx => h x (by simp [hx]))
    simp only [List.cons_append, scan_registry, hn, strlen_eq_length name hnul]
    by_cases hp : name <+: buf
    · have h0 : strncmp buf name name.length = 0 := (strncmp_zero_iff name buf hnul).mpr hp
      have hm : prefix_matches buf m = true := by simp [prefix_matches, hn, hp]
      simp [h0, first_match, List.find?_cons, hm, name_length, hn]
    · have h0 : ¬ strncmp buf name name.length = 0 :=
        fun e => hp ((strncmp_zero_iff name buf hnul).mp e)
      have hm : prefix_matches buf m = false := by
        cases hb : prefix_matches buf m with
        | false => rfl
        | true =>
          simp only [prefix_matches, hn, List.isPrefixOf_iff_prefix] at hb
          exact absurd hb hp
      simp only [h0, if_false, first_match, List.find?_cons, hm]
      exact ih1

theorem prefix_matches_clash (buf : List Char) (a b : earlycon_match_entry)
    (ha : prefix_matches buf a = true) (hb : prefix_matches buf b = true) :
    names_clash a b = true := by
  unfold prefix_matches at ha hb
  unfold names_clash
  cases hna : a.name with
  | none => simp [hna] at ha
  | some x =>
    cases hnb : b.name with
    | none => simp [hnb] at hb
    | some y =>
      simp only [hna, List.isPrefixOf_iff_prefix] at ha
      simp only [hnb, List.isPrefixOf_iff_prefix] at hb
      simp only [Bool.or_eq_true, List.isPrefixOf_iff_prefix]
      exact List.prefix_or_prefix_of_prefix ha hb

theorem first_match_unique (buf : List Char) :
    ∀ l : List earlycon_match_entry, l.Pairwise (fun a b => names_clash a b = false) →
      ∀ m ∈ l, prefix_matches buf m = true → first_match l buf = some m := by
  intro l
  induction l with
  | nil => intro _ m hm; simp at hm
  | cons a l ih =>
    intro hpw m hm hp
    rw [List.pairwise_cons] at hpw
    rcases List.mem_cons.mp hm with rfl | hml
    · simp [first_match, List.find?_cons, hp]
    · have ha : prefix_matches buf a = false := by
        cases hpa : prefix_matches buf a with
        | false => rfl
        | true =>
          have := prefix_matches_clash buf a m hpa hp
          rw [hpw.1 m hml] at this
          exact absurd this (by simp)
      have := ih hpw.2 m hml hp
      simpa [first_match, List.find?_cons, ha] using this

theorem setup_on_eq (fixmap : Nat → Nat) (buf : List Char) (st : State)
    (l : List earlycon_match_entry) (hl : ∀ m ∈ l, well_named m = true) :
    setup_early_printk_on (l ++ [empty_entry]) fixmap (some buf) st
      = some (0, match first_match l buf with
                 | some m =>
                   selected_state fixmap st m (parse_address (buf.drop (name_length m))).1
                 | none => unknown_state st buf) := by
  unfold setup_early_printk_on
  simp only [scan_registry_eq buf l hl]
  cases hf : first_match l buf with
  | none => simp [empty_entry, unknown_state]
  | some m =>
    have hmem : m ∈ l := List.mem_of_find?_eq_some hf
    obtain ⟨name, hn, _⟩ := well_named_spec m (hl m hmem)
    simp only [hn, selected_state]
    by_cases hz : (parse_address (List.drop (name_length m) buf)).1 = 0
    · simp [hz]
    · simp [hz]

theorem backends_well_named : ∀ m ∈ earlycon_backends, well_named m = true := by decide

theorem backends_no_clash :
    earlycon_backends.Pairwise (fun a b => names_clash a b = false) := by decide

/-! ## Theorems: the address -/

theorem parse_address_digits (h t : List Char) (hh : ∀ c ∈ h, is_hex c = true)
    (ht : is_hex (deref t) = false) :
    parse_address (',' :: '0' :: 'x' :: (h ++ t)) = (hex_value h % 2 ^ ADDR_BITS, t) := by
  have hp := parse_integer_append h t hh ht 0
  simp only [Nat.zero_mod] at hp
  have h3 : strncmp (',' :: '0' :: 'x' :: (h ++ t)) [',', '0', 'x'] 3 = 0 :=
    (strncmp_zero_iff [',', '0', 'x'] _ (by decide)).mpr ⟨h ++ t, rfl⟩
  simp only [parse_address, h3, if_true, List.drop_succ_cons, List.drop_zero, simple_strtoul,
    deref, List.headD_cons, List.tail_cons, true_or, and_self, hp, hex_value, Nat.mod_mod]

theorem parse_address_other (buf : List Char) (h : ¬ [',', '0', 'x'] <+: buf) :
    parse_address buf = (0, buf) := by
  have h3 : ¬ strncmp buf [',', '0', 'x'] 3 = 0 :=
    fun e => h ((strncmp_zero_iff [',', '0', 'x'] buf (by decide)).mp e)
  simp [parse_address, h3]

theorem deref_dropWhile_not_hex (l : List Char) : is_hex (deref (l.dropWhile is_hex)) = false := by
  induction l with
  | nil => simp [deref, is_hex, NUL_not_hex]
  | cons c l ih =>
    by_cases hc : is_hex c = true
    · simpa [List.dropWhile_cons, hc] using ih
    · have hc1 : is_hex c = false := by simpa using hc
      simp [List.dropWhile_cons, hc1, deref]

theorem parse_address_eq (rest : List Char) : (parse_address rest).1 = spec_address rest := by
  by_cases hp : [',', '0', 'x'] <+: rest
  · obtain ⟨r, rfl⟩ := hp
    have hsplit : r = r.takeWhile is_hex ++ r.dropWhile is_hex :=
      (List.takeWhile_append_dropWhile is_hex r).symm
    have := parse_address_digits (r.takeWhile is_hex) (r.dropWhile is_hex)
      (fun c hc => List.mem_takeWhile_imp hc) (deref_dropWhile_not_hex r)
    rw [← hsplit] at this
    have hpre : [',', '0', 'x'] <+: [',', '0', 'x'] ++ r := ⟨r, rfl⟩
    simp only [spec_address, hpre, if_true]
    simp only [List.cons_append, List.nil_append] at this ⊢
    rw [this]
    simp
  · simp [parse_address_other rest hp, spec_address, hp]

theorem takeWhile_hex_append (h t : List Char) (hh : ∀ c ∈ h, is_hex c = true)
    (ht : is_hex (deref t) = false) : (h ++ t).takeWhile is_hex = h := by
  induction h with
  | nil =>
    cases t with
    | nil => rfl
    | cons c t =>
      have hc : is_hex c = false := by simpa [deref] using ht
      simp [List.takeWhile_cons, hc]
  | cons c h ih =>
    have hc : is_hex c = true := hh c (by simp)
    simp [List.takeWhile_cons, hc, ih (fun d hd => hh d (by simp [hd]))]

theorem spec_address_digits (h t : List Char) (hh : ∀ c ∈ h, is_hex c = true)
    (ht : is_hex (deref t) = false) :
    spec_address (',' :: '0' :: 'x' :: (h ++ t)) = hex_value h % 2 ^ ADDR_BITS := by
  rw [← parse_address_eq, parse_address_digits h t hh ht]

/-! ## Theorems: the parser -/

theorem setup_eq (fixmap : Nat → Nat) (buf : List Char) (st : State) :
    setup_early_printk fixmap (some buf) st
      = some (0, match first_match earlycon_backends buf with
                 | some m => selected_state fixmap st m (spec_address (buf.drop (name_length m)))
                 | none => unknown_state st buf) := by
  unfold setup_early_printk earlycon_match
  rw [setup_on_eq fixmap buf st earlycon_backends backends_well_named]
  simp only [parse_address_eq]

theorem first_match_of_name (m : earlycon_match_entry) (name rest : List Char)
    (hm : m ∈ earlycon_backends) (hn : m.name = some name) :
    first_match earlycon_backends (name ++ rest) = some m := by
  apply first_match_unique _ _ backends_no_clash m hm
  simp [prefix_matches, hn]

theorem setup_named (fixmap : Nat → Nat) (st : State) (m : earlycon_match_entry)
    (name rest : List Char) (hm : m ∈ earlycon_backends) (hn : m.name = some name) :
    setup_early_printk fixmap (some (name ++ rest)) st
      = some (0, selected_state fixmap st m (spec_address rest)) := by
  rw [setup_eq, first_match_of_name m name rest hm hn]
  simp [name_length, hn]

theorem find_first_of_split (buf : List Char) (m : earlycon_match_entry) :
    ∀ (pre post : List earlycon_match_entry), (∀ x ∈ pre, prefix_matches buf x = false) →
      prefix_matches buf m = true → first_match (pre ++ m :: post) buf = some m := by
  intro pre
  induction pre with
  | nil => intro post _ hm; simp [first_match, List.find?_cons, hm]
  | cons a pre ih =>
    intro post hpre hm
    have ha : prefix_matches buf a = false := hpre a (by simp)
    have := ih post (fun x hx => hpre x (by simp [hx])) hm
    simpa [first_match, List.find?_cons, ha] using this

/-- Claim C2: for every entry of the registry and every string `h` of
hexadecimal digits whose value is nonzero and fits the address type, parsing
the name followed by `,0x` and `h` from the boot state returns 0, records the
transmit function of that entry, sets `early_base` to what the remap
collaborator returns for the value of `h` (its only call), and registers the
early console, without any warning. -/
theorem setup_name_with_address (fixmap : Nat → Nat) (m : earlycon_match_entry)
    (name h : List Char) (hm : m ∈ earlycon_backends) (hn : m.name = some name)
    (hh : ∀ c ∈ h, is_hex c = true) (hnz : hex_value h ≠ 0)
    (hfit : hex_value h < 2 ^ ADDR_BITS) :
    setup_early_printk fixmap (some (name ++ [',', '0', 'x'] ++ h)) State.boot
      = some (0, { early_base := fixmap (hex_value h)
                   printch := m.printch
                   early_console := some .early_console_dev
                   registered := [.early_console_dev]
                   fixmap_calls := [hex_value h]
                   log := [] }) := by
  have ha := spec_address_digits h [] hh (by simp [deref, is_hex, NUL_not_hex])
  rw [List.append_nil] at ha
  rw [List.append_assoc, setup_named fixmap State.boot m name _ hm hn]
  simp only [List.cons_append, List.nil_append, ha, Nat.mod_eq_of_lt hfit, selected_state]
  simp [hnz, State.boot]

/-- The example of claim C2: each of the five names followed by `,0x1000`
selects its own transmit function and records the handle of address 0x1000. -/
theorem setup_name_with_address_witness :
    (setup_early_printk sample_fixmap (some "pl011,0x1000".toList) State.boot
        = some (0, { early_base := sample_fixmap 0x1000, printch := some .pl011_printch,
                     early_console := some .early_console_dev,
                     registered := [.early_console_dev], fixmap_calls := [0x1000], log := [] }))
      ∧ (setup_early_printk sample_fixmap (some "smh,0x1000".toList) State.boot
        = some (0, { early_base := sample_fixmap 0x1000, printch := some .smh_printch,
                     early_console := some .early_console_dev,
                     registered := [.early_console_dev], fixmap_calls := [0x1000], log := [] }))
      ∧ (setup_early_printk sample_fixmap (some "uart8250-8bit,0x1000".toList) State.boot
        = some (0, { early_base := sample_fixmap 0x1000,
                     printch := some .uart8250_8bit_printch,
                     early_console := some .early_console_dev,
                     registered := [.early_console_dev], fixmap_calls := [0x1000], log := [] }))
      ∧ (setup_early_printk sample_fixmap (some "uart8250-32bit,0x1000".toList) State.boot
        = some (0, { early_base := sample_fixmap 0x1000,
                     printch := some .uart8250_32bit_printch,
                     early_console := some .early_console_dev,
                     registered := [.early_console_dev], fixmap_calls := [0x1000], log := [] }))
      ∧ (setup_early_printk sample_fixmap (some "msm_hsl_uart,0x1000".toList) State.boot
        = some (0, { early_base := sample_fixmap 0x1000,
                     printch := some .msm_hsl_uart_printch,
                     early_console := some .early_console_dev,
                     registered := [.early_console_dev], fixmap_calls := [0x1000], log := [] })) :=
  ⟨setup_name_with_address sample_fixmap ⟨some "pl011".toList, some .pl011_printch⟩
      "pl011".toList "1000".toList (by decide) rfl (by decide) (by decide) (by decide),
   setup_name_with_address sample_fixmap ⟨some "smh".toList, some .smh_printch⟩
      "smh".toList "1000".toList (by decide) rfl (by decide) (by decide) (by decide),
   setup_name_with_address sample_fixmap
      ⟨some "uart8250-8bit".toList, some .uart8250_8bit_printch⟩
      "uart8250-8bit".toList "1000".toList (by decide) rfl (by decide) (by decide) (by decide),
   setup_name_with_address sample_fixmap
      ⟨some "uart8250-32bit".toList, some .uart8250_32bit_printch⟩
      "uart8250-32bit".toList "1000".toList (by decide) rfl (by decide) (by decide) (by decide),
   setup_name_with_address sample_fixmap
      ⟨some "msm_hsl_uart".toList, some .msm_hsl_uart_printch⟩
      "msm_hsl_uart".toList "1000".toList (by decide) rfl (by decide) (by decide) (by decide)⟩

/-- Claim C3: for every non-null argument the parser returns 0 and what it
selects is decided by the first entry of the registry, in declaration order,
whose name is a literal prefix of the argument: the transmit function of that
entry is recorded and the console registered; when no name is a prefix
`printch` and the console registration stay as they were.  "First" is spelt
out: an entry whose name is a prefix, standing after entries whose names are
not, is the one selected. -/
theorem setup_selects_first_match (fixmap : Nat → Nat) (buf : List Char) (st : State) :
    ∃ st2 : State, setup_early_printk fixmap (some buf) st = some (0, st2)
      ∧ st2.printch = (match first_match earlycon_backends buf with
                       | some m => m.printch
                       | none => st.printch)
      ∧ st2.registered = (match first_match earlycon_backends buf with
                          | some _ => st.registered ++ [.early_console_dev]
                          | none => st.registered)
      ∧ (∀ (pre post : List earlycon_match_entry) (m : earlycon_match_entry),
          earlycon_backends = pre ++ m :: post →
          (∀ x ∈ pre, prefix_matches buf x = false) → prefix_matches buf m = true →
          st2.printch = m.printch)
      ∧ ((∀ m ∈ earlycon_backends, prefix_matches buf m = false) →
          st2.printch = st.printch ∧ st2.registered = st.registered) := by
  refine ⟨_, setup_eq fixmap buf st, ?_, ?_, ?_, ?_⟩
  · cases first_match earlycon_backends buf <;> simp [selected_state, unknown_state]
  · cases first_match earlycon_backends buf <;> simp [selected_state, unknown_state]
  · intro pre post m hsplit hpre hm
    have hf := find_first_of_split buf m pre post hpre hm
    rw [← hsplit] at hf
    simp [hf, selected_state]
  · intro hnone
    have hf : first_match earlycon_backends buf = none := by
      simpa [first_match, List.find?_eq_none] using hnone
    simp [hf, unknown_state]

/-- Claim C4: when no registered name is a prefix of the argument, the parser
returns 0 and only logs the warning "Unknown earlyprintk arguments" with the
whole argument: `early_base`, `printch`, the console registration and the
calls of the remap collaborator are as before.  Parsing any second argument
afterwards gives the same return value and the same selection state as
parsing that second argument alone. -/
theorem setup_unknown_name (fixmap : Nat → Nat) (buf : List Char) (st : State)
    (h : ∀ m ∈ earlycon_backends, prefix_matches buf m = false) :
    setup_early_printk fixmap (some buf) st
        = some (0, { st with
            log := st.log ++ [⟨"Unknown earlyprintk arguments: %s\n", some buf⟩] })
      ∧ ∀ arg2 : Option (List Char), ∃ alone after : State,
          setup_early_printk fixmap arg2 st = some (0, alone)
          ∧ setup_early_printk fixmap arg2 (unknown_state st buf) = some (0, after)
          ∧ after.early_base = alone.early_base ∧ after.printch = alone.printch
          ∧ after.early_console = alone.early_console
          ∧ after.registered = alone.registered
          ∧ after.fixmap_calls = alone.fixmap_calls := by
  have hf : first_match earlycon_backends buf = none := by
    simpa [first_match, List.find?_eq_none] using h
  constructor
  · rw [setup_eq, hf]
    rfl
  · intro arg2
    cases arg2 with
    | none =>
      exact ⟨_, _, rfl, rfl, rfl, rfl, rfl, rfl, rfl⟩
    | some buf2 =>
      refine ⟨_, _, setup_eq fixmap buf2 st, setup_eq fixmap buf2 _, ?_⟩
      cases first_match earlycon_backends buf2 <;> simp [selected_state, unknown_state]

/-- The example of claim C4: "foo,0x1000" names no backend; it is warned about
and changes nothing else, and "smh" parsed after it selects what "smh" alone
selects. -/
theorem setup_unknown_name_witness :
    setup_early_printk sample_fixmap (some "foo,0x1000".toList) State.boot
        = some (0, { State.boot with
            log := [⟨"Unknown earlyprintk arguments: %s\n", some "foo,0x1000".toList⟩] })
      ∧ ∃ alone after : State,
          setup_early_printk sample_fixmap (some "smh".toList) State.boot = some (0, alone)
          ∧ setup_early_printk sample_fixmap (some "smh".toList)
              (unknown_state State.boot "foo,0x1000".toList) = some (0, after)
          ∧ after.early_base = alone.early_base ∧ after.printch = alone.printch
          ∧ after.early_console = alone.early_console
          ∧ after.registered = alone.registered
          ∧ after.fixmap_calls = alone.fixmap_calls :=
  ⟨(setup_unknown_name sample_fixmap "foo,0x1000".toList State.boot (by decide)).1,
   (setup_unknown_name sample_fixmap "foo,0x1000".toList State.boot (by decide)).2
     (some "smh".toList)⟩

/-- Claim C5, refuted as stated: for the empty string the warning logged is
"Unknown earlyprintk arguments" with the empty argument, not the warning that
no arguments were passed. -/
theorem setup_empty_string_warning :
    (setup_early_printk sample_fixmap (some []) State.boot).map (fun r => r.2.log)
        = some [⟨"Unknown earlyprintk arguments: %s\n", some []⟩]
      ∧ (setup_early_printk sample_fixmap (some []) State.boot).map (fun r => r.2.log)
        ≠ some [⟨"No earlyprintk arguments passed.\n", none⟩] := by
  constructor
  · decide
  · decide

/-- Claim C5 as amended: for a null argument and for the empty string the
parser returns 0 and changes nothing but the log, so `early_base`, `printch`
and the console registration stay as they were; the warning is "No earlyprintk
arguments passed." for the null argument and "Unknown earlyprintk arguments"
with the empty argument for the empty string. -/
theorem setup_null_or_empty (fixmap : Nat → Nat) (st : State) :
    setup_early_printk fixmap none st
        = some (0, { st with log := st.log ++ [⟨"No earlyprintk arguments passed.\n", none⟩] })
      ∧ setup_early_printk fixmap (some []) st
        = some (0, { st with
            log := st.log ++ [⟨"Unknown earlyprintk arguments: %s\n", some []⟩] }) := by
  constructor
  · rfl
  · rw [setup_eq]
    rfl

/-- Claim C6: for an argument that begins with the name of a registry entry
the parser returns 0, records the transmit function of that entry and
registers the console without a warning; the remap collaborator is called
exactly once, with the parsed address, when the text after the name begins
with `,0x` and its digits give a nonzero address, and `early_base` becomes the
handle returned; otherwise the collaborator is not called and `early_base` is
left as it was. -/
theorem setup_remap_once_or_never (fixmap : Nat → Nat) (buf : List Char) (st : State)
    (m : earlycon_match_entry) (name : List Char) (hm : m ∈ earlycon_backends)
    (hn : m.name = some name) (hp : name <+: buf) :
    ∃ st2 : State, setup_early_printk fixmap (some buf) st = some (0, st2)
      ∧ st2.printch = m.printch
      ∧ st2.early_console = some .early_console_dev
      ∧ st2.registered = st.registered ++ [.early_console_dev]
      ∧ st2.log = st.log
      ∧ (spec_address (buf.drop name.length) ≠ 0 →
          st2.fixmap_calls = st.fixmap_calls ++ [spec_address (buf.drop name.length)]
          ∧ st2.early_base = fixmap (spec_address (buf.drop name.length)))
      ∧ (spec_address (buf.drop name.length) = 0 →
          st2.fixmap_calls = st.fixmap_calls ∧ st2.early_base = st.early_base) := by
  obtain ⟨rest, rfl⟩ := hp
  refine ⟨_, setup_named fixmap st m name rest hm hn, rfl, rfl, rfl, rfl, ?_, ?_⟩
  · intro ha
    simp only [List.drop_left] at ha ⊢
    simp [selected_state, ha]
  · intro ha
    simp only [List.drop_left] at ha ⊢
    simp [selected_state, ha]

/-- The example of claim C6: "smh" parsed from the boot state returns 0,
selects `smh_printch` and registers the console, while the remap collaborator
is not called and `early_base` stays unset. -/
theorem setup_remap_once_or_never_witness :
    ∃ st2 : State, setup_early_printk sample_fixmap (some "smh".toList) State.boot = some (0, st2)
      ∧ st2.printch = some .smh_printch
      ∧ st2.registered = [.early_console_dev]
      ∧ st2.fixmap_calls = [] ∧ st2.early_base = 0 := by
  obtain ⟨st2, h1, h2, _, h4, _, _, h7⟩ :=
    setup_remap_once_or_never sample_fixmap "smh".toList State.boot
      ⟨some "smh".toList, some .smh_printch⟩ "smh".toList (by decide) rfl ⟨[], by decide⟩
  have h0 : spec_address (List.drop "smh".toList.length "smh".toList) = 0 := by decide
  exact ⟨st2, h1, h2, h4, (h7 h0).1, (h7 h0).2⟩

/-- Claim C7, refuted as stated: the seventeen digits of 0x10000000000000000
have the base-16 value 2 ^ 64, but the address parsed from them is 0, so
"pl011,0x10000000000000000" leaves `early_base` unset and the remap
collaborator uncalled. -/
theorem long_address_wraps :
    hex_value "10000000000000000".toList = 2 ^ 64
      ∧ (parse_address ",0x10000000000000000".toList).1 = 0
      ∧ setup_early_printk sample_fixmap (some "pl011,0x10000000000000000".toList) State.boot
          = some (0, { State.boot with
              printch := some .pl011_printch
              early_console := some .early_console_dev
              registered := [.early_console_dev] }) := by
  refine ⟨by decide, by decide, by decide⟩

/-- Claim C7 as amended: for every entry of the registry, every string `h` of
hexadecimal digits and every text `t` that does not begin with a hexadecimal
digit, parsing the name, `,0x`, `h` and `t` gives the same return value and
the same state as parsing the name, `,0x` and `h`: the entry is selected with
the address that is the base-16 value of `h` reduced modulo 2 ^ 64, the width
of the address type; `t` is left unread. -/
theorem trailing_text_inert (fixmap : Nat → Nat) (st : State) (m : earlycon_match_entry)
    (name h t : List Char) (hm : m ∈ earlycon_backends) (hn : m.name = some name)
    (hh : ∀ c ∈ h, is_hex c = true) (ht : is_hex (deref t) = false) :
    setup_early_printk fixmap (some (name ++ [',', '0', 'x'] ++ h ++ t)) st
        = setup_early_printk fixmap (some (name ++ [',', '0', 'x'] ++ h)) st
      ∧ setup_early_printk fixmap (some (name ++ [',', '0', 'x'] ++ h ++ t)) st
        = some (0, selected_state fixmap st m (hex_value h % 2 ^ ADDR_BITS))
      ∧ parse_address ([',', '0', 'x'] ++ h ++ t) = (hex_value h % 2 ^ ADDR_BITS, t) := by
  have ha := spec_address_digits h t hh ht
  have hb := spec_address_digits h [] hh (by simp [deref, is_hex, NUL_not_hex])
  rw [List.append_nil] at hb
  have e1 : name ++ [',', '0', 'x'] ++ h ++ t = name ++ (',' :: '0' :: 'x' :: (h ++ t)) := by
    simp
  have e2 : name ++ [',', '0', 'x'] ++ h = name ++ (',' :: '0' :: 'x' :: h) := by simp
  rw [e1, e2, setup_named fixmap st m name _ hm hn, setup_named fixmap st m name _ hm hn,
    ha, hb]
  refine ⟨rfl, rfl, ?_⟩
  simpa using parse_address_digits h t hh ht

/-- The example of claim C7: the options after the address of
"pl011,0x1000,115200n8" change nothing. -/
theorem trailing_text_inert_witness :
    setup_early_printk sample_fixmap (some ("pl011,0x1000".toList ++ ",115200n8".toList))
        State.boot
      = setup_early_printk sample_fixmap (some "pl011,0x1000".toList) State.boot :=
  (trailing_text_inert sample_fixmap State.boot ⟨some "pl011".toList, some .pl011_printch⟩
    "pl011".toList "1000".toList ",115200n8".toList (by decide) rfl (by decide)
    (by decide)).1

theorem names_clash_symm {a b : earlycon_match_entry} (h : names_clash a b = false) :
    names_clash b a = false := by
  unfold names_clash at h ⊢
  cases ha : a.name <;> cases hb : b.name <;> simp_all [Bool.or_comm]

theorem first_match_perm (buf : List Char) (l : List earlycon_match_entry)
    (hl : l.Perm earlycon_backends) :
    first_match l buf = first_match earlycon_backends buf := by
  have hpw : l.Pairwise (fun a b => names_clash a b = false) :=
    (List.Perm.pairwise_iff (fun h => names_clash_symm h) hl).mpr backends_no_clash
  cases hf : first_match earlycon_backends buf with
  | none =>
    have hall : ∀ x ∈ earlycon_backends, ¬ prefix_matches buf x = true := by
      simpa [first_match, List.find?_eq_none] using hf
    simp only [first_match, List.find?_eq_none]
    exact fun x hx => hall x (hl.mem_iff.mp hx)
  | some m =>
    have hmem : m ∈ earlycon_backends := List.mem_of_find?_eq_some hf
    have hpm : prefix_matches buf m = true := List.find?_some hf
    exact first_match_unique buf l hpw m (hl.mem_iff.mpr hmem) hpm

/-- Claim C8: the registry holds the five names pl011, smh, uart8250-8bit,
uart8250-32bit, msm_hsl_uart in this order before the empty entry; the names
are pairwise distinct and none is a prefix of another; hence at most one
entry has a name that is a prefix of a given argument, and the parser run on
any reordering of the five entries gives the result it gives on the registry
as declared. -/
theorem registry_names_unambiguous :
    earlycon_match.map (fun m => m.name)
        = [some "pl011".toList, some "smh".toList, some "uart8250-8bit".toList,
           some "uart8250-32bit".toList, some "msm_hsl_uart".toList, none]
      ∧ (earlycon_backends.map (fun m => m.name)).Nodup
      ∧ (earlycon_backends.map (fun m => m.name.getD [])).Pairwise
          (fun x y => ¬ x <+: y ∧ ¬ y <+: x)
      ∧ (∀ (buf : List Char) (m1 m2 : earlycon_match_entry), m1 ∈ earlycon_backends →
          m2 ∈ earlycon_backends → prefix_matches buf m1 = true →
          prefix_matches buf m2 = true → m1 = m2)
      ∧ (∀ l : List earlycon_match_entry, l.Perm earlycon_backends →
          ∀ (fixmap : Nat → Nat) (arg : Option (List Char)) (st : State),
            setup_early_printk_on (l ++ [empty_entry]) fixmap arg st
              = setup_early_printk fixmap arg st) := by
  refine ⟨by decide, by decide, by decide, ?_, ?_⟩
  · intro buf m1 m2 h1 h2 p1 p2
    have e1 := first_match_unique buf _ backends_no_clash m1 h1 p1
    have e2 := first_match_unique buf _ backends_no_clash m2 h2 p2
    rw [e1] at e2
    exact Option.some.inj e2
  · intro l hl fixmap arg st
    cases arg with
    | none => rfl
    | some buf =>
      have hwn : ∀ x ∈ l, well_named x = true :=
        fun x hx => backends_well_named x (hl.mem_iff.mp hx)
      rw [setup_on_eq fixmap buf st l hwn, first_match_perm buf l hl, setup_eq]
      simp only [parse_address_eq]

/-! ## Theorems: busy-waits -/

theorem pl011_txff_cond_eq (hd : Headers) (base : Nat) :
    pl011_txff_cond hd base
      = poll 32 (base + hd.UART01x_FR) (fun v => v &&& hd.UART01x_FR_TXFF != 0) := rfl

theorem pl011_busy_cond_eq (hd : Headers) (base : Nat) :
    pl011_busy_cond hd base
      = poll 32 (base + hd.UART01x_FR) (fun v => v &&& hd.UART01x_FR_BUSY != 0) := rfl

theorem uart8250_8bit_cond_eq (hd : Headers) (base : Nat) :
    uart8250_8bit_cond hd base
      = poll 8 (base + hd.UART_LSR) (fun v => !(v &&& hd.UART_LSR_THRE != 0)) := rfl

theorem uart8250_32bit_cond_eq (hd : Headers) (base : Nat) :
    uart8250_32bit_cond hd base
      = poll 32 (base + (hd.UART_LSR <<< 2)) (fun v => !(v &&& hd.UART_LSR_THRE != 0)) := rfl

theorem status_reads_succ (b : Bus) (width addr n : Nat) :
    status_reads b width addr (n + 1)
      = Access.read width addr (b.future addr 0 % 2 ^ width)
          :: status_reads { future := b.advance addr, trace := b.trace } width addr n := by
  simp [status_reads, List.range_succ_eq_map, List.map_map, Function.comp_def, Bus.advance]

theorem spin_poll (width addr : Nat) (busy : Nat → Bool) :
    ∀ (k fuel : Nat) (b : Bus), k < fuel →
      (∀ i < k, busy (b.future addr i % 2 ^ width) = true) →
      busy (b.future addr k % 2 ^ width) = false →
      spin (poll width addr busy) fuel b = some (b.after_reads width addr (k + 1)) := by
  intro k
  induction k with
  | zero =>
    intro fuel b hf _ hk
    obtain ⟨f, rfl⟩ : ∃ f, fuel = f + 1 := ⟨fuel - 1, by omega⟩
    simp only [spin, poll, hk, Option.some.injEq]
    apply Bus.ext
    · funext a i
      simp [Bus.after_reads, Bus.advance]
    · simp [Bus.after_reads, status_reads, List.range_succ]
  | succ k ih =>
    intro fuel b hf hbusy hk
    obtain ⟨f, rfl⟩ : ∃ f, fuel = f + 1 := ⟨fuel - 1, by omega⟩
    have h0 : busy (b.future addr 0 % 2 ^ width) = true := hbusy 0 (by omega)
    simp only [spin, poll, h0]
    rw [ih f _ (by omega)
      (fun i hi => by simpa [Bus.advance] using hbusy (i + 1) (by omega))
      (by simpa [Bus.advance] using hk)]
    rw [Option.some.injEq]
    apply Bus.ext
    · funext a i
      by_cases ha : a = addr
      · simp [Bus.after_reads, Bus.advance, ha, Nat.add_assoc]
      · simp [Bus.after_reads, Bus.advance, ha]
    · rw [Bus.after_reads, Bus.after_reads, status_reads_succ b width addr (k + 1)]
      simp [status_reads]

theorem spin_poll_forever (width addr : Nat) (busy : Nat → Bool) :
    ∀ (fuel : Nat) (b : Bus), (∀ i, busy (b.future addr i % 2 ^ width) = true) →
      spin (poll width addr busy) fuel b = none := by
  intro fuel
  induction fuel with
  | zero => intro b _; rfl
  | succ f ih =>
    intro b hb
    have h0 := hb 0
    simp only [spin, poll, h0]
    exact ih _ (fun i => by simpa [Bus.advance] using hb (i + 1))

theorem msm_addr_ne (base : Nat) :
    base + MSM_HSL_UART_ISR ≠ base + MSM_HSL_UART_SR := by
  simp [MSM_HSL_UART_ISR, MSM_HSL_UART_SR]

/-- The bus after one round of the wait of `msm_hsl_uart_printch` that read
both SR and ISR. -/
theorem msm_cond_both (base : Nat) (b : Bus)
    (h1 : msm_sr base b 0 &&& MSM_HSL_UART_SR_TXEMT = 0) :
    msm_hsl_uart_cond base b
      = (!(msm_isr base b 0 &&& MSM_HSL_UART_ISR_TXREADY != 0),
         { future := fun a i =>
             if a = base + MSM_HSL_UART_SR ∨ a = base + MSM_HSL_UART_ISR then b.future a (i + 1)
             else b.future a i
           trace := b.trace
             ++ [Access.read 32 (base + MSM_HSL_UART_SR) (msm_sr base b 0),
                 Access.read 32 (base + MSM_HSL_UART_ISR) (msm_isr base b 0)] }) := by
  have hne := msm_addr_ne base
  unfold msm_sr at h1
  simp only [msm_hsl_uart_cond, readl_relaxed, h1, bne_self_eq_false, Bool.not_false, if_true,
    Bus.advance, hne, if_false, msm_isr, msm_sr, Prod.mk.injEq, true_and]
  apply Bus.ext
  · funext a i
    by_cases h : a = base + MSM_HSL_UART_ISR
    · simp [h, hne, Bus.advance]
    · by_cases h2 : a = base + MSM_HSL_UART_SR
      · simp [h2, Bus.advance, hne.symm]
      · simp [h, h2, Bus.advance]
  · simp

theorem msm_cond_sr (base : Nat) (b : Bus)
    (h1 : msm_sr base b 0 &&& MSM_HSL_UART_SR_TXEMT ≠ 0) :
    msm_hsl_uart_cond base b
      = (false,
         { future := b.advance (base + MSM_HSL_UART_SR)
           trace := b.trace ++ [Access.read 32 (base + MSM_HSL_UART_SR) (msm_sr base b 0)] }) := by
  simp only [msm_sr, Nat.reducePow] at h1
  simp [msm_hsl_uart_cond, readl_relaxed, h1, msm_sr]

theorem msm_busy_polls_succ (base : Nat) (b b1 : Bus) (k : Nat)
    (hsr : ∀ i, msm_sr base b1 i = msm_sr base b (i + 1))
    (hisr : ∀ i, msm_isr base b1 i = msm_isr base b (i + 1)) :
    msm_busy_polls base b (k + 1)
      = [Access.read 32 (base + MSM_HSL_UART_SR) (msm_sr base b 0),
         Access.read 32 (base + MSM_HSL_UART_ISR) (msm_isr base b 0)]
        ++ msm_busy_polls base b1 k := by
  simp [msm_busy_polls, List.range_succ_eq_map, List.flatMap_map, hsr, hisr, Function.comp_def]

theorem msm_spin (base : Nat) :
    ∀ (k fuel : Nat) (b : Bus), k < fuel →
      (∀ i < k, msm_sr base b i &&& MSM_HSL_UART_SR_TXEMT = 0
        ∧ msm_isr base b i &&& MSM_HSL_UART_ISR_TXREADY = 0) →
      (msm_sr base b k &&& MSM_HSL_UART_SR_TXEMT ≠ 0
        ∨ msm_isr base b k &&& MSM_HSL_UART_ISR_TXREADY ≠ 0) →
      ∃ b2 : Bus, spin (msm_hsl_uart_cond base) fuel b = some b2
        ∧ b2.trace = b.trace ++ msm_busy_polls base b k ++ msm_last_poll base b k
        ∧ ∀ a, a ≠ base + MSM_HSL_UART_SR → a ≠ base + MSM_HSL_UART_ISR →
            b2.future a = b.future a := by
  intro k
  induction k with
  | zero =>
    intro fuel b hf _ hk
    obtain ⟨f, rfl⟩ : ∃ f, fuel = f + 1 := ⟨fuel - 1, by omega⟩
    by_cases hsr : msm_sr base b 0 &&& MSM_HSL_UART_SR_TXEMT = 0
    · have hisr : msm_isr base b 0 &&& MSM_HSL_UART_ISR_TXREADY ≠ 0 := by
        rcases hk with h | h
        · exact absurd hsr h
        · exact h
      have hc := msm_cond_both base b hsr
      have hb : (!(msm_isr base b 0 &&& MSM_HSL_UART_ISR_TXREADY != 0)) = false := by
        simp [hisr]
      rw [hb] at hc
      refine ⟨(msm_hsl_uart_cond base b).2, by simp only [spin, hc], ?_, ?_⟩
      · simp [hc, msm_busy_polls, msm_last_poll, hsr]
      · intro a h1 h2
        funext i
        simp [hc, h1, h2]
    · have hc := msm_cond_sr base b hsr
      refine ⟨(msm_hsl_uart_cond base b).2, by simp only [spin, hc], ?_, ?_⟩
      · simp [hc, msm_busy_polls, msm_last_poll, hsr]
      · intro a h1 _
        funext i
        simp [hc, Bus.advance, h1]
  | succ k ih =>
    intro fuel b hf hbusy hk
    obtain ⟨f, rfl⟩ : ∃ f, fuel = f + 1 := ⟨fuel - 1, by omega⟩
    obtain ⟨hsr, hisr⟩ := hbusy 0 (by omega)
    have hne := msm_addr_ne base
    have hc := msm_cond_both base b hsr
    simp only [hisr, bne_self_eq_false, Bool.not_false] at hc
    have hs : ∀ i, msm_sr base (msm_hsl_uart_cond base b).2 i = msm_sr base b (i + 1) := by
      intro i; simp [msm_sr, hc]
    have hi : ∀ i, msm_isr base (msm_hsl_uart_cond base b).2 i = msm_isr base b (i + 1) := by
      intro i; simp [msm_isr, hc]
    obtain ⟨b2, h2, htr, hfut⟩ := ih f (msm_hsl_uart_cond base b).2 (by omega)
      (fun i hi2 => by rw [hs i, hi i]; exact hbusy (i + 1) (by omega))
      (by rw [hs k, hi k]; exact hk)
    refine ⟨b2, ?_, ?_, ?_⟩
    · rw [← h2]
      simp only [spin, hc]
    · rw [htr, msm_busy_polls_succ base b _ k hs hi]
      have hl : msm_last_poll base (msm_hsl_uart_cond base b).2 k
          = msm_last_poll base b (k + 1) := by
        simp only [msm_last_poll, hs k, hi k]
      rw [hl]
      simp [hc]
    · intro a h1 h3
      rw [hfut a h1 h3]
      funext i
      simp [hc, h1, h3]

/-! ## Theorems: the transmit functions -/

theorem no_write_before_of (ready : Access → Bool) (r : Access) (post : List Access)
    (hr : ready r = true) :
    ∀ pre : List Access, (∀ e ∈ pre, e.is_write = false) →
      no_write_before ready (pre ++ r :: post) = true := by
  intro pre
  induction pre with
  | nil => intro _; simp [no_write_before, List.takeWhile_cons, hr]
  | cons e pre ih =>
    intro h
    have he : e.is_write = false := h e (by simp)
    have := ih (fun x hx => h x (by simp [hx]))
    unfold no_write_before at this ⊢
    by_cases hre : ready e = true
    · simp [List.takeWhile_cons, hre]
    · have hre1 : ready e = false := by simpa using hre
      simp only [List.cons_append, List.takeWhile_cons, hre1, Bool.not_false, if_true,
        List.all_cons, he, Bool.true_and]
      exact this

theorem status_reads_not_write (b : Bus) (width addr n : Nat) :
    ∀ e ∈ status_reads b width addr n, e.is_write = false := by
  intro e he
  simp only [status_reads, List.mem_map] at he
  obtain ⟨i, _, rfl⟩ := he
  rfl

theorem status_reads_last (b : Bus) (width addr n : Nat) :
    status_reads b width addr (n + 1)
      = status_reads b width addr n ++ [Access.read width addr (b.poll_value width addr n)] := by
  simp [status_reads, List.range_succ, Bus.poll_value]

theorem values_written_append (addr : Nat) (l1 l2 : List Access) :
    values_written addr (l1 ++ l2) = values_written addr l1 ++ values_written addr l2 := by
  induction l1 with
  | nil => rfl
  | cons e l1 ih =>
    cases e with
    | read w a v => simpa [values_written] using ih
    | write w a v =>
      by_cases h : a = addr
      · simp [values_written, h, ih]
      · simp [values_written, h, ih]
    | semihost c => simpa [values_written] using ih

theorem values_written_reads (addr : Nat) (l : List Access)
    (h : ∀ e ∈ l, e.is_write = false) : values_written addr l = [] := by
  induction l with
  | nil => rfl
  | cons e l ih =>
    have he : e.is_write = false := h e (by simp)
    have := ih (fun x hx => h x (by simp [hx]))
    cases e with
    | read w a v => simpa [values_written] using this
    | write w a v => simp [Access.is_write] at he
    | semihost c => simpa [values_written] using this

theorem char_val_lt (ch : Char) : char_val ch < 2 ^ 8 := by
  unfold char_val
  exact Nat.mod_lt _ (by norm_num)

theorem char_val_mod8 (ch : Char) : char_val ch % 2 ^ 8 = char_val ch :=
  Nat.mod_eq_of_lt (char_val_lt ch)

theorem char_val_mod32 (ch : Char) : char_val ch % 2 ^ 32 = char_val ch :=
  Nat.mod_eq_of_lt (Nat.lt_trans (char_val_lt ch) (by norm_num))

theorem uart8250_8bit_run (hd : Headers) (base : Nat) (ch : Char) (b : Bus) (k fuel : Nat)
    (hf : k < fuel)
    (hbusy : ∀ i < k, b.poll_value 8 (base + hd.UART_LSR) i &&& hd.UART_LSR_THRE = 0)
    (hready : b.poll_value 8 (base + hd.UART_LSR) k &&& hd.UART_LSR_THRE ≠ 0) :
    uart8250_8bit_printch hd base fuel ch b
      = some (writeb_relaxed (char_val ch) (base + hd.UART_TX)
          (b.after_reads 8 (base + hd.UART_LSR) (k + 1))) := by
  unfold uart8250_8bit_printch
  rw [uart8250_8bit_cond_eq, spin_poll 8 _ _ k fuel b hf
    (fun i hi => by simpa [Bus.poll_value] using hbusy i hi)
    (by simpa [Bus.poll_value] using hready)]

theorem uart8250_32bit_run (hd : Headers) (base : Nat) (ch : Char) (b : Bus) (k fuel : Nat)
    (hf : k < fuel)
    (hbusy : ∀ i < k, b.poll_value 32 (base + (hd.UART_LSR <<< 2)) i &&& hd.UART_LSR_THRE = 0)
    (hready : b.poll_value 32 (base + (hd.UART_LSR <<< 2)) k &&& hd.UART_LSR_THRE ≠ 0) :
    uart8250_32bit_printch hd base fuel ch b
      = some (writel_relaxed (char_val ch) (base + (hd.UART_TX <<< 2))
          (b.after_reads 32 (base + (hd.UART_LSR <<< 2)) (k + 1))) := by
  unfold uart8250_32bit_printch
  rw [uart8250_32bit_cond_eq, spin_poll 32 _ _ k fuel b hf
    (fun i hi => by simpa [Bus.poll_value] using hbusy i hi)
    (by simpa [Bus.poll_value] using hready)]

theorem pl011_first_wait (hd : Headers) (base : Nat) (b : Bus) (k fuel : Nat)
    (hf : k < fuel)
    (hbusy : ∀ i < k, b.poll_value 32 (base + hd.UART01x_FR) i &&& hd.UART01x_FR_TXFF ≠ 0)
    (hready : b.poll_value 32 (base + hd.UART01x_FR) k &&& hd.UART01x_FR_TXFF = 0) :
    spin (pl011_txff_cond hd base) fuel b
      = some (b.after_reads 32 (base + hd.UART01x_FR) (k + 1)) := by
  rw [pl011_txff_cond_eq, spin_poll 32 _ _ k fuel b hf
    (fun i hi => by simpa [Bus.poll_value] using hbusy i hi)
    (by simpa [Bus.poll_value] using hready)]

theorem pl011_run (hd : Headers) (base : Nat) (ch : Char) (b : Bus) (k j fuel : Nat)
    (hf : k < fuel) (hj : j < fuel)
    (hbusy : ∀ i < k, b.poll_value 32 (base + hd.UART01x_FR) i &&& hd.UART01x_FR_TXFF ≠ 0)
    (hready : b.poll_value 32 (base + hd.UART01x_FR) k &&& hd.UART01x_FR_TXFF = 0)
    (hshift : ∀ i < j,
      b.poll_value 32 (base + hd.UART01x_FR) (k + 1 + i) &&& hd.UART01x_FR_BUSY ≠ 0)
    (hidle : b.poll_value 32 (base + hd.UART01x_FR) (k + 1 + j) &&& hd.UART01x_FR_BUSY = 0) :
    pl011_printch hd base fuel ch b
      = some ((writeb_relaxed (char_val ch) (base + hd.UART01x_DR)
          (b.after_reads 32 (base + hd.UART01x_FR) (k + 1))).after_reads 32
            (base + hd.UART01x_FR) (j + 1)) := by
  unfold pl011_printch
  rw [pl011_first_wait hd base b k fuel hf hbusy hready]
  simp only
  rw [pl011_busy_cond_eq, spin_poll 32 _ _ j fuel _ hj]
  · intro i hi
    have := hshift i hi
    simp only [Bus.poll_value] at this
    simpa [writeb_relaxed, Bus.after_reads, Nat.add_comm, Nat.add_left_comm] using this
  · have := hidle
    simp only [Bus.poll_value] at this
    simpa [writeb_relaxed, Bus.after_reads, Nat.add_comm, Nat.add_left_comm] using this

theorem pl011_second_wait_hangs (hd : Headers) (base : Nat) (ch : Char) (b : Bus) (k : Nat)
    (hshift : ∀ i, b.poll_value 32 (base + hd.UART01x_FR) (k + 1 + i) &&& hd.UART01x_FR_BUSY ≠ 0)
    (fuel : Nat) :
    spin (pl011_busy_cond hd base) fuel
      (writeb_relaxed (char_val ch) (base + hd.UART01x_DR)
        (b.after_reads 32 (base + hd.UART01x_FR) (k + 1))) = none := by
  rw [pl011_busy_cond_eq]
  apply spin_poll_forever
  intro i
  have := hshift i
  simp only [Bus.poll_value] at this
  simpa [writeb_relaxed, Bus.after_reads, Nat.add_comm, Nat.add_left_comm] using this

theorem pl011_hangs (hd : Headers) (base : Nat) (ch : Char) (b : Bus) (k : Nat)
    (hbusy : ∀ i < k, b.poll_value 32 (base + hd.UART01x_FR) i &&& hd.UART01x_FR_TXFF ≠ 0)
    (hready : b.poll_value 32 (base + hd.UART01x_FR) k &&& hd.UART01x_FR_TXFF = 0)
    (hshift : ∀ i, b.poll_value 32 (base + hd.UART01x_FR) (k + 1 + i) &&& hd.UART01x_FR_BUSY ≠ 0)
    (fuel : Nat) : pl011_printch hd base fuel ch b = none := by
  unfold pl011_printch
  by_cases hf : k < fuel
  · rw [pl011_first_wait hd base b k fuel hf hbusy hready]
    simp only
    rw [pl011_busy_cond_eq]
    apply spin_poll_forever
    intro i
    have := hshift i
    simp only [Bus.poll_value] at this
    simpa [writeb_relaxed, Bus.after_reads, Nat.add_comm, Nat.add_left_comm] using this
  · cases hs : spin (pl011_txff_cond hd base) fuel b with
    | none => rfl
    | some b1 =>
      exfalso
      have hall : ∀ (f : Nat) (b0 : Bus), f ≤ k →
          (∀ i < f, b0.poll_value 32 (base + hd.UART01x_FR) i &&& hd.UART01x_FR_TXFF ≠ 0) →
          spin (pl011_txff_cond hd base) f b0 = none := by
        intro f
        induction f with
        | zero => intro _ _ _; rfl
        | succ f ih =>
          intro b0 hle hb0
          have h0 := hb0 0 (by omega)
          simp only [Bus.poll_value] at h0
          simp only [spin, pl011_txff_cond, readl_relaxed]
          have hb : (b0.future (base + hd.UART01x_FR) 0 % 2 ^ 32 &&& hd.UART01x_FR_TXFF != 0)
              = true := by simpa using h0
          rw [hb]
          apply ih _ (by omega)
          intro i hi
          have := hb0 (i + 1) (by omega)
          simpa [Bus.poll_value, Bus.advance] using this
      rw [hall fuel b (by omega) (fun i hi => hbusy i (by omega))] at hs
      exact absurd hs (by simp)

theorem msm_run (base : Nat) (ch : Char) (b : Bus) (k fuel : Nat) (hf : k < fuel)
    (hbusy : ∀ i < k, msm_sr base b i &&& MSM_HSL_UART_SR_TXEMT = 0
      ∧ msm_isr base b i &&& MSM_HSL_UART_ISR_TXREADY = 0)
    (hready : msm_sr base b k &&& MSM_HSL_UART_SR_TXEMT ≠ 0
      ∨ msm_isr base b k &&& MSM_HSL_UART_ISR_TXREADY ≠ 0) :
    ∃ b2 : Bus, msm_hsl_uart_printch false base fuel ch b = some b2
      ∧ b2.trace = b.trace ++ (msm_busy_polls base b k ++ msm_last_poll base b k
          ++ [Access.write 32 (base + MSM_HSL_UART_CR) 0x300,
              Access.write 32 (base + MSM_HSL_UART_NCF_TX) 1,
              Access.read 32 (base + MSM_HSL_UART_NCF_TX)
                (b.poll_value 32 (base + MSM_HSL_UART_NCF_TX) 0),
              Access.write 32 (base + MSM_HSL_UART_TF) (char_val ch)]) := by
  obtain ⟨b1, h1, htr, hfut⟩ := msm_spin base k fuel b hf hbusy hready
  have hn : b1.future (base + MSM_HSL_UART_NCF_TX) = b.future (base + MSM_HSL_UART_NCF_TX) :=
    hfut _ (by simp [MSM_HSL_UART_NCF_TX, MSM_HSL_UART_SR])
      (by simp [MSM_HSL_UART_NCF_TX, MSM_HSL_UART_ISR])
  refine ⟨writel_relaxed (char_val ch) (base + MSM_HSL_UART_TF)
        (readl_relaxed (base + MSM_HSL_UART_NCF_TX)
            (writel_relaxed 1 (base + MSM_HSL_UART_NCF_TX)
              (writel_relaxed 0x300 (base + MSM_HSL_UART_CR) b1))).2, ?_, ?_⟩
  · simp only [msm_hsl_uart_printch, h1, Bool.false_eq_true, if_false]
  · have hc : char_val ch < 4294967296 := Nat.lt_trans (char_val_lt ch) (by norm_num)
    simp [writel_relaxed, readl_relaxed, htr, hn, Bus.poll_value, hc]

theorem msm_polls_not_write (base : Nat) (b : Bus) (k : Nat) :
    ∀ e ∈ msm_busy_polls base b k, e.is_write = false := by
  intro e he
  simp only [msm_busy_polls, List.mem_flatMap] at he
  obtain ⟨i, _, hi⟩ := he
  simp only [List.mem_cons, List.mem_singleton, List.not_mem_nil, or_false] at hi
  rcases hi with rfl | rfl <;> rfl

theorem msm_no_write_before (base : Nat) (b : Bus) (k : Nat) (post : List Access)
    (hready : msm_sr base b k &&& MSM_HSL_UART_SR_TXEMT ≠ 0
      ∨ msm_isr base b k &&& MSM_HSL_UART_ISR_TXREADY ≠ 0) :
    no_write_before (msm_hsl_uart_ready base)
      (msm_busy_polls base b k ++ msm_last_poll base b k ++ post) = true := by
  by_cases hsr : msm_sr base b k &&& MSM_HSL_UART_SR_TXEMT = 0
  · have hisr : msm_isr base b k &&& MSM_HSL_UART_ISR_TXREADY ≠ 0 := by
      rcases hready with h | h
      · exact absurd hsr h
      · exact h
    have e : msm_busy_polls base b k ++ msm_last_poll base b k ++ post
        = (msm_busy_polls base b k
            ++ [Access.read 32 (base + MSM_HSL_UART_SR) (msm_sr base b k)])
          ++ Access.read 32 (base + MSM_HSL_UART_ISR) (msm_isr base b k) :: post := by
      simp [msm_last_poll, hsr]
    rw [e]
    apply no_write_before_of
    · simp [msm_hsl_uart_ready, hisr]
    · intro x hx
      rcases List.mem_append.mp hx with h | h
      · exact msm_polls_not_write base b k x h
      · simp only [List.mem_singleton] at h
        subst h
        rfl
  · have e : msm_busy_polls base b k ++ msm_last_poll base b k ++ post
        = msm_busy_polls base b k
          ++ Access.read 32 (base + MSM_HSL_UART_SR) (msm_sr base b k) :: post := by
      simp [msm_last_poll, hsr]
    rw [e]
    apply no_write_before_of
    · simp [msm_hsl_uart_ready, hsr]
    · exact msm_polls_not_write base b k

theorem msm_last_poll_not_write (base : Nat) (b : Bus) (k : Nat) :
    ∀ e ∈ msm_last_poll base b k, e.is_write = false := by
  intro e he
  unfold msm_last_poll at he
  split at he
  · simp only [List.mem_singleton] at he
    subst he
    rfl
  · simp only [List.mem_cons, List.mem_singleton, List.not_mem_nil, or_false] at he
    rcases he with rfl | rfl <;> rfl

theorem poll_trace_props (ready : Access → Bool) (b : Bus) (width addr k data : Nat)
    (w : Access) (hw : values_written data [w] = [v])
    (hr : ready (Access.read width addr (b.poll_value width addr k)) = true) :
    no_write_before ready (status_reads b width addr (k + 1) ++ [w]) = true
      ∧ values_written data (status_reads b width addr (k + 1) ++ [w]) = [v] := by
  constructor
  · rw [status_reads_last, List.append_assoc]
    exact no_write_before_of ready _ _ hr _ (status_reads_not_write b width addr k)
  · rw [values_written_append, values_written_reads data _ (status_reads_not_write _ _ _ _), hw]
    rfl

/-- Claim C9, refuted as stated: a PL011 whose flag register reads 0x08 at every
poll shows TXFF clear from the first poll on, yet `pl011_printch` does not
terminate on it: after the data write it waits for BUSY to clear. -/
theorem pl011_waits_for_busy_clear :
    (∀ i, (constant_device 0x08).poll_value 32 (0x1000 + linux_headers.UART01x_FR) i
        &&& linux_headers.UART01x_FR_TXFF = 0)
      ∧ ¬ ∃ fuel, (pl011_printch linux_headers 0x1000 fuel 'A' (constant_device 0x08)).isSome
          = true := by
  constructor
  · intro i
    simp only [Bus.poll_value, constant_device, linux_headers]
    decide
  · rintro ⟨fuel, h⟩
    rw [pl011_hangs linux_headers 0x1000 'A' (constant_device 0x08) 0
      (fun i hi => absurd hi (Nat.not_lt_zero i))
      (by simp only [Bus.poll_value, constant_device, linux_headers]; decide)
      (fun i => by simp only [Bus.poll_value, constant_device, linux_headers]; decide)
      fuel] at h
    exact absurd h (by simp)

/-- Claim C9 as amended: on a device whose status reads busy for `k` polls and
ready from then on, `uart8250_8bit_printch`, `uart8250_32bit_printch` and
`msm_hsl_uart_printch` built without `CONFIG_SHSYS_CUST` terminate, perform
no register write before the first status read that shows ready (THRE set;
TXEMT or TXREADY set) and write the character to the data register exactly
once; the accesses are the `k + 1` status reads followed by the write (for
`msm_hsl_uart_printch` the rounds of SR and ISR reads followed by its four
accesses).  `pl011_printch` (ready is TXFF clear) performs the `k + 1` reads
of the flag register, writes the character to the data register, and then
reads the flag register until it shows BUSY clear: when the read number `j + 1`
after the write is the first to show BUSY clear the call returns with exactly
these accesses, and when BUSY stays set the first wait ends, and the wait
begun after the data write, hence the call, never ends.  Built with
`CONFIG_SHSYS_CUST`, `msm_hsl_uart_printch` returns without any access. -/
theorem transmit_after_ready (hd : Headers) (base : Nat) (ch : Char) (b : Bus) (k : Nat) :
    ((∀ i < k, b.poll_value 32 (base + hd.UART01x_FR) i &&& hd.UART01x_FR_TXFF ≠ 0) →
      (∀ i, k ≤ i → b.poll_value 32 (base + hd.UART01x_FR) i &&& hd.UART01x_FR_TXFF = 0) →
        (∀ j, (∀ i < j,
              b.poll_value 32 (base + hd.UART01x_FR) (k + 1 + i) &&& hd.UART01x_FR_BUSY ≠ 0) →
            b.poll_value 32 (base + hd.UART01x_FR) (k + 1 + j) &&& hd.UART01x_FR_BUSY = 0 →
            ∀ fuel, k < fuel → j < fuel →
              ∃ (b2 : Bus) (new : List Access),
                pl011_printch hd base fuel ch b = some b2
                ∧ b2.trace = b.trace ++ new
                ∧ new = status_reads b 32 (base + hd.UART01x_FR) (k + 1)
                    ++ [Access.write 8 (base + hd.UART01x_DR) (char_val ch)]
                    ++ status_reads (b.after_reads 32 (base + hd.UART01x_FR) (k + 1)) 32
                        (base + hd.UART01x_FR) (j + 1)
                ∧ no_write_before (pl011_ready hd base) new = true
                ∧ values_written (base + hd.UART01x_DR) new = [char_val ch])
        ∧ ((∀ i,
              b.poll_value 32 (base + hd.UART01x_FR) (k + 1 + i) &&& hd.UART01x_FR_BUSY ≠ 0) →
            (∀ fuel, pl011_printch hd base fuel ch b = none)
            ∧ (∀ fuel, k < fuel →
                spin (pl011_txff_cond hd base) fuel b
                  = some (b.after_reads 32 (base + hd.UART01x_FR) (k + 1)))
            ∧ (∀ fuel,
                spin (pl011_busy_cond hd base) fuel
                  (writeb_relaxed (char_val ch) (base + hd.UART01x_DR)
                    (b.after_reads 32 (base + hd.UART01x_FR) (k + 1))) = none)))
      ∧ ((∀ i < k, b.poll_value 8 (base + hd.UART_LSR) i &&& hd.UART_LSR_THRE = 0) →
        (∀ i, k ≤ i → b.poll_value 8 (base + hd.UART_LSR) i &&& hd.UART_LSR_THRE ≠ 0) →
          ∀ fuel, k < fuel →
            ∃ (b2 : Bus) (new : List Access),
              uart8250_8bit_printch hd base fuel ch b = some b2
              ∧ b2.trace = b.trace ++ new
              ∧ new = status_reads b 8 (base + hd.UART_LSR) (k + 1)
                  ++ [Access.write 8 (base + hd.UART_TX) (char_val ch)]
              ∧ no_write_before (uart8250_ready hd (base + hd.UART_LSR)) new = true
              ∧ values_written (base + hd.UART_TX) new = [char_val ch])
      ∧ ((∀ i < k,
            b.poll_value 32 (base + (hd.UART_LSR <<< 2)) i &&& hd.UART_LSR_THRE = 0) →
        (∀ i, k ≤ i →
            b.poll_value 32 (base + (hd.UART_LSR <<< 2)) i &&& hd.UART_LSR_THRE ≠ 0) →
          ∀ fuel, k < fuel →
            ∃ (b2 : Bus) (new : List Access),
              uart8250_32bit_printch hd base fuel ch b = some b2
              ∧ b2.trace = b.trace ++ new
              ∧ new = status_reads b 32 (base + (hd.UART_LSR <<< 2)) (k + 1)
                  ++ [Access.write 32 (base + (hd.UART_TX <<< 2)) (char_val ch)]
              ∧ no_write_before (uart8250_ready hd (base + (hd.UART_LSR <<< 2))) new = true
              ∧ values_written (base + (hd.UART_TX <<< 2)) new = [char_val ch])
      ∧ ((∀ i < k, msm_sr base b i &&& MSM_HSL_UART_SR_TXEMT = 0
            ∧ msm_isr base b i &&& MSM_HSL_UART_ISR_TXREADY = 0) →
        (∀ i, k ≤ i → msm_sr base b i &&& MSM_HSL_UART_SR_TXEMT ≠ 0
            ∨ msm_isr base b i &&& MSM_HSL_UART_ISR_TXREADY ≠ 0) →
          ∀ fuel, k < fuel →
            ∃ (b2 : Bus) (new : List Access),
              msm_hsl_uart_printch false base fuel ch b = some b2
              ∧ b2.trace = b.trace ++ new
              ∧ new = msm_busy_polls base b k ++ msm_last_poll base b k
                  ++ [Access.write 32 (base + MSM_HSL_UART_CR) 0x300,
                      Access.write 32 (base + MSM_HSL_UART_NCF_TX) 1,
                      Access.read 32 (base + MSM_HSL_UART_NCF_TX)
                        (b.poll_value 32 (base + MSM_HSL_UART_NCF_TX) 0),
                      Access.write 32 (base + MSM_HSL_UART_TF) (char_val ch)]
              ∧ no_write_before (msm_hsl_uart_ready base) new = true
              ∧ values_written (base + MSM_HSL_UART_TF) new = [char_val ch])
      ∧ (∀ fuel, msm_hsl_uart_printch true base fuel ch b = some b) := by
  have h8 : char_val ch < 256 := char_val_lt ch
  have h32 : char_val ch < 4294967296 := Nat.lt_trans h8 (by norm_num)
  refine ⟨?_, ?_, ?_, ?_, ?_⟩
  · intro hbusy hready
    constructor
    · intro j hshift hidle fuel hf hj
      refine ⟨_, status_reads b 32 (base + hd.UART01x_FR) (k + 1)
          ++ [Access.write 8 (base + hd.UART01x_DR) (char_val ch)]
          ++ status_reads (b.after_reads 32 (base + hd.UART01x_FR) (k + 1)) 32
              (base + hd.UART01x_FR) (j + 1),
        pl011_run hd base ch b k j fuel hf hj hbusy (hready k (Nat.le_refl k)) hshift hidle,
        ?_, rfl, ?_, ?_⟩
      · simp [Bus.after_reads, writeb_relaxed, status_reads, h8]
      · rw [status_reads_last]
        simp only [List.append_assoc, List.cons_append, List.nil_append]
        apply no_write_before_of _ _ _ _ _ (status_reads_not_write b 32 _ k)
        simp [pl011_ready, hready k (Nat.le_refl k)]
      · rw [values_written_append, values_written_append,
          values_written_reads _ _ (status_reads_not_write b 32 _ _),
          values_written_reads _ _ (status_reads_not_write _ 32 _ _)]
        simp [values_written]
    · intro hshift
      exact ⟨fun fuel => pl011_hangs hd base ch b k hbusy (hready k (Nat.le_refl k)) hshift fuel,
        fun fuel hf => pl011_first_wait hd base b k fuel hf hbusy (hready k (Nat.le_refl k)),
        fun fuel => pl011_second_wait_hangs hd base ch b k hshift fuel⟩
  · intro hbusy hready fuel hf
    have hr := hready k (Nat.le_refl k)
    refine ⟨_, status_reads b 8 (base + hd.UART_LSR) (k + 1)
        ++ [Access.write 8 (base + hd.UART_TX) (char_val ch)],
      uart8250_8bit_run hd base ch b k fuel hf hbusy hr, ?_, rfl, ?_⟩
    · simp [Bus.after_reads, writeb_relaxed, h8]
    · exact poll_trace_props _ b 8 _ k _ _ (by simp [values_written])
        (by simp [uart8250_ready, hr])
  · intro hbusy hready fuel hf
    have hr := hready k (Nat.le_refl k)
    refine ⟨_, status_reads b 32 (base + (hd.UART_LSR <<< 2)) (k + 1)
        ++ [Access.write 32 (base + (hd.UART_TX <<< 2)) (char_val ch)],
      uart8250_32bit_run hd base ch b k fuel hf hbusy hr, ?_, rfl, ?_⟩
    · simp [Bus.after_reads, writel_relaxed, h32]
    · exact poll_trace_props _ b 32 _ k _ _ (by simp [values_written])
        (by simp [uart8250_ready, hr])
  · intro hbusy hready fuel hf
    have hr := hready k (Nat.le_refl k)
    obtain ⟨b2, h2, htr⟩ := msm_run base ch b k fuel hf hbusy hr
    refine ⟨b2, _, h2, htr, rfl, msm_no_write_before base b k _ hr, ?_⟩
    rw [values_written_append, values_written_append,
      values_written_reads _ _ (msm_polls_not_write base b k),
      values_written_reads _ _ (msm_last_poll_not_write base b k)]
    simp [values_written, MSM_HSL_UART_CR, MSM_HSL_UART_NCF_TX, MSM_HSL_UART_TF]
  · intro fuel
    rfl

/-- The example of claim C9: an 8250 whose line status register reads 0 for
two polls and 0x20 (THRE) from the third on; a PL011 whose flag register
reads 0x20 (TXFF) twice, then 0x08 (BUSY) twice, then 0; an MSM UART whose SR
and ISR read 0 for two rounds and 0x80 (TXREADY in ISR) from the third on.
Each call returns with the accesses listed: the write follows the first read
that shows ready, and the PL011 goes on reading the flag register after the
write until BUSY is clear. -/
theorem transmit_after_ready_witness :
    (∃ b2 : Bus,
        uart8250_8bit_printch linux_headers 0x1000 3 'A' (step_device 0 0x20 2) = some b2
        ∧ b2.trace = [Access.read 8 0x1005 0, Access.read 8 0x1005 0, Access.read 8 0x1005 0x20,
            Access.write 8 0x1000 65])
      ∧ (∃ b2 : Bus,
        pl011_printch linux_headers 0x1000 3 'A' pl011_sample_device = some b2
        ∧ b2.trace = [Access.read 32 0x1018 0x20, Access.read 32 0x1018 0x20,
            Access.read 32 0x1018 0x08, Access.write 8 0x1000 65, Access.read 32 0x1018 0x08,
            Access.read 32 0x1018 0])
      ∧ (∃ b2 : Bus,
        uart8250_32bit_printch linux_headers 0x1000 3 'A' (step_device 0 0x20 2) = some b2
        ∧ b2.trace = [Access.read 32 0x1014 0, Access.read 32 0x1014 0,
            Access.read 32 0x1014 0x20, Access.write 32 0x1000 65])
      ∧ (∃ b2 : Bus,
        msm_hsl_uart_printch false 0x1000 3 'A' (step_device 0 0x80 2) = some b2
        ∧ b2.trace = [Access.read 32 0x10a4 0, Access.read 32 0x10b4 0, Access.read 32 0x10a4 0,
            Access.read 32 0x10b4 0, Access.read 32 0x10a4 0x80, Access.read 32 0x10b4 0x80,
            Access.write 32 0x10a8 0x300, Access.write 32 0x1040 1, Access.read 32 0x1040 0,
            Access.write 32 0x1100 65]) := by
  refine ⟨?_, ?_, ?_, ?_⟩
  · obtain ⟨b2, new, h, htr, hnew, _, _⟩ :=
      (transmit_after_ready linux_headers 0x1000 'A' (step_device 0 0x20 2) 2).2.1
        (by decide)
        (fun i hi => by
          have h : ¬ i < 2 := Nat.not_lt.mpr hi
          simp only [Bus.poll_value, step_device, linux_headers, h, if_false]
          decide)
        3 (by decide)
    refine ⟨b2, h, ?_⟩
    rw [htr, hnew]
    decide
  · obtain ⟨b2, new, h, htr, hnew, _, _⟩ :=
      ((transmit_after_ready linux_headers 0x1000 'A' pl011_sample_device 2).1
        (by decide)
        (fun i hi => by
          have h : ¬ i < 2 := Nat.not_lt.mpr hi
          simp only [Bus.poll_value, pl011_sample_device, linux_headers, h, if_false]
          split <;> decide)).1 1 (by decide) (by decide) 3 (by decide) (by decide)
    refine ⟨b2, h, ?_⟩
    rw [htr, hnew]
    decide
  · obtain ⟨b2, new, h, htr, hnew, _, _⟩ :=
      (transmit_after_ready linux_headers 0x1000 'A' (step_device 0 0x20 2) 2).2.2.1
        (by decide)
        (fun i hi => by
          have h : ¬ i < 2 := Nat.not_lt.mpr hi
          simp only [Bus.poll_value, step_device, linux_headers, h, if_false]
          decide)
        3 (by decide)
    refine ⟨b2, h, ?_⟩
    rw [htr, hnew]
    decide
  · obtain ⟨b2, new, h, htr, hnew, _, _⟩ :=
      (transmit_after_ready linux_headers 0x1000 'A' (step_device 0 0x80 2) 2).2.2.2.1
        (by decide)
        (fun i hi => by
          have h : ¬ i < 2 := Nat.not_lt.mpr hi
          simp only [msm_sr, msm_isr, step_device, h, if_false]
          decide)
        3 (by decide)
    refine ⟨b2, h, ?_⟩
    rw [htr, hnew]
    decide

/-- Claim C10, refuted as stated: built with `CONFIG_SHSYS_CUST`,
`msm_hsl_uart_printch` returns without any register access, whatever the
status registers show. -/
theorem msm_hsl_uart_compiled_out :
    (msm_hsl_uart_printch true 0x1000 1 'A' (constant_device 0x88)).map (fun b => b.trace)
      = some [] := by
  rfl

/-- Claim C10 as amended: built without `CONFIG_SHSYS_CUST`, on a device that
shows neither TXEMT (bit 3 of SR, offset 0xa4) nor TXREADY (bit 7 of ISR,
offset 0xb4) for `k` rounds of the wait and one of them in the next round,
`msm_hsl_uart_printch` returns, and its accesses are: SR and ISR read in each
of the `k` rounds; in the last round SR alone when it shows TXEMT, else SR and
ISR; then 0x300 written to 0xa8, 1 written to 0x40, 0x40 read back, and the
character written to 0x100, in this order and nothing else.  Built with
`CONFIG_SHSYS_CUST` the function returns without any access. -/
theorem msm_hsl_uart_sequence (base : Nat) (ch : Char) (b : Bus) (k : Nat) :
    (MSM_HSL_UART_SR = 0xa4 ∧ MSM_HSL_UART_ISR = 0xb4 ∧ MSM_HSL_UART_SR_TXEMT = 2 ^ 3
        ∧ MSM_HSL_UART_ISR_TXREADY = 2 ^ 7)
      ∧ ((∀ i < k, msm_sr base b i &&& MSM_HSL_UART_SR_TXEMT = 0
            ∧ msm_isr base b i &&& MSM_HSL_UART_ISR_TXREADY = 0) →
          (msm_sr base b k &&& MSM_HSL_UART_SR_TXEMT ≠ 0
            ∨ msm_isr base b k &&& MSM_HSL_UART_ISR_TXREADY ≠ 0) →
          ∀ fuel, k < fuel →
            ∃ b2 : Bus, msm_hsl_uart_printch false base fuel ch b = some b2
              ∧ b2.trace = b.trace ++ (msm_busy_polls base b k ++ msm_last_poll base b k
                  ++ [Access.write 32 (base + 0xa8) 0x300,
                      Access.write 32 (base + 0x40) 1,
                      Access.read 32 (base + 0x40) (b.poll_value 32 (base + 0x40) 0),
                      Access.write 32 (base + 0x100) (char_val ch)]))
      ∧ (∀ fuel, msm_hsl_uart_printch true base fuel ch b = some b) := by
  refine ⟨⟨rfl, rfl, by decide, by decide⟩, ?_, fun _ => rfl⟩
  intro hbusy hready fuel hf
  exact msm_run base ch b k fuel hf hbusy hready

/-- The example of claim C10: SR and ISR read 0 in the first round and 0x08
(TXEMT) in the second; the wait ends at the second read of SR and the four
accesses of the transmit sequence follow. -/
theorem msm_hsl_uart_sequence_witness :
    ∃ b2 : Bus, msm_hsl_uart_printch false 0x1000 2 'A' (step_device 0 0x08 1) = some b2
      ∧ b2.trace
        = [Access.read 32 0x10a4 0, Access.read 32 0x10b4 0, Access.read 32 0x10a4 8,
           Access.write 32 0x10a8 0x300, Access.write 32 0x1040 1, Access.read 32 0x1040 0,
           Access.write 32 0x1100 65] := by
  obtain ⟨b2, h, htr⟩ :=
    (msm_hsl_uart_sequence 0x1000 'A' (step_device 0 0x08 1) 1).2.1 (by decide) (by decide) 2
      (by decide)
  exact ⟨b2, h, htr.trans (by decide)⟩

end EarlyPrintk
